import Mathlib

/-!
Verification of the AGROSENSE LoRa smart-farm firmware.

Shallow embedding of the three firmware units:
  * `src/src/main.cpp`        — ESP32 gateway (packet decode, control policy,
                                MQTT callback, LoRa command bursts),
  * `src/arduino_code/arduino.cpp` — Mega field node (telemetry encode,
                                command decode, sensor clamping),
  * `src/src/uno_code.cpp`    — Uno field-node variant.

Strings are modelled as `List Char` (Arduino `String`), floats as `FVal`
(a rational or NaN; the only NaN sources in the firmware are the
`NAN`-initialised globals, since `String::toFloat`/`atof` returns `0.0`
when no conversion is possible and the telemetry protocol never carries
the literal texts `nan`/`inf`).  MQTT/OLED publishing and wall-clock time
are external collaborators per the spec and are not part of the state.
-/

set_option maxRecDepth 4000

/-! ## Character helpers (ASCII semantics of the Arduino runtime) -/

/-- `isspace` as used by Arduino `String::trim` (ASCII whitespace). -/
def isSpaceC (c : Char) : Bool :=
  c == ' ' || c == '\t' || c == '\n' || c == '\x0b' || c == '\x0c' || c == '\r'

/-- ASCII digit test (`isdigit` / `isDigit` in the sources). -/
def isDigitC (c : Char) : Bool :=
  48 ≤ c.toNat && c.toNat ≤ 57

/-- Printable-ASCII test from the gateway's receive loop: `c >= 32 && c <= 126`. -/
def printableC (c : Char) : Bool :=
  32 ≤ c.toNat && c.toNat ≤ 126

/-- `toupper` on one ASCII char, as done by `String::toUpperCase`. -/
def upChar (c : Char) : Char :=
  if 97 ≤ c.toNat && c.toNat ≤ 122 then Char.ofNat (c.toNat - 32) else c

/-- Decimal digit to its ASCII character. -/
def digitChar (n : ℕ) : Char :=
  match n with
  | 0 => '0' | 1 => '1' | 2 => '2' | 3 => '3' | 4 => '4'
  | 5 => '5' | 6 => '6' | 7 => '7' | 8 => '8' | _ => '9'

/-! ## Arduino `String` operations on `List Char` -/

/-- `String::toUpperCase`. -/
def upperList (s : List Char) : List Char := s.map upChar

/-- `String::trim`: strip leading and trailing ASCII whitespace. -/
def trimList (s : List Char) : List Char :=
  ((s.dropWhile isSpaceC).reverse.dropWhile isSpaceC).reverse

/-- Is `pat` a prefix of `s`? (Boolean, for executable scanning.) -/
def isPre : List Char → List Char → Bool
  | [], _ => true
  | _ :: _, [] => false
  | a :: p, b :: s => a == b && isPre p s

/-- Index of the first occurrence of `pat` in `s`
(Arduino `String::indexOf`, `none` for `-1`). -/
def firstIdx : List Char → List Char → Option ℕ
  | [], pat => if isPre pat [] then some 0 else none
  | c :: r, pat =>
      if isPre pat (c :: r) then some 0 else (firstIdx r pat).map (· + 1)

/-- `pat` occurs somewhere inside `s` (substring relation). -/
def occursIn (pat s : List Char) : Prop := ∃ u v, s = u ++ pat ++ v

/-! ## The gateway's `extractStr` / `extractFloat` (main.cpp lines 475–482)

```cpp
String extractStr(const String& s,const String& tag){
  int i=s.indexOf(tag); if(i==-1) return "";
  i+=tag.length(); while(i<s.length()&&s[i]==' ') ++i;
  int j=s.indexOf('|',i); if(j==-1) j=s.indexOf(',',i); if(j==-1) j=s.length();
  return s.substring(i,j);
}
float extractFloat(const String& s,const String& tag){ return extractStr(s,tag).toFloat(); }
```
Working on the remainder `t = s.drop (i + tag.length)` with relative
indices is the same as the source's absolute `indexOf(·, i)` /
`substring(i, j)` combination. -/

def extractStr (s tag : List Char) : List Char :=
  match firstIdx s tag with
  | none => []
  | some i =>
      let t := (s.drop (i + tag.length)).dropWhile (fun c => c == ' ')
      let j :=
        match firstIdx t ['|'] with
        | some j => j
        | none =>
            match firstIdx t [','] with
            | some j => j
            | none => t.length
      t.take j

/-- Digit string to number, most significant digit first (as `atof` scans). -/
def digitsToNat (s : List Char) : ℕ :=
  s.foldl (fun a c => 10 * a + (c.toNat - 48)) 0

/-- Model of C `atof` (hence Arduino `String::toFloat`) on plain decimal
text: optional whitespace, optional sign, integer digits, optional
fraction.  Returns `0` when no conversion is possible, exactly like
`atof`.  (The `nan`/`inf`/hex/exponent literal forms never occur in this
protocol and are not modelled.) -/
def atofQ (s : List Char) : ℚ :=
  let s1 := s.dropWhile isSpaceC
  let signNeg : Bool := s1.head? == some '-'
  let s2 := if s1.head? == some '-' || s1.head? == some '+' then s1.tail else s1
  let ip := s2.takeWhile isDigitC
  let r1 := s2.dropWhile isDigitC
  let fp := if r1.head? == some '.' then r1.tail.takeWhile isDigitC else []
  let mant : ℤ := digitsToNat ip * 10 ^ fp.length + digitsToNat fp
  Rat.divInt (if signNeg then -mant else mant) (10 ^ fp.length)

/-- `extractFloat` from the gateway. -/
def extractFloat (s tag : List Char) : ℚ := atofQ (extractStr s tag)

/-! ## Decimal rendering (Arduino `String(int)` / `String(float, 1)`) -/

/-- Decimal digits of a natural number (`String(int)`). -/
def renderNat (n : ℕ) : List Char :=
  if n < 10 then [digitChar n] else renderNat (n / 10) ++ [digitChar (n % 10)]
termination_by n
decreasing_by exact Nat.div_lt_self (by omega) (by omega)

/-- `String(x, 1)` applied to the 1-decimal rounded value `n/10`
(`n` is the signed count of tenths).  The claimed round-trip is modulo
this rounding, so the rounded tenths are the input of the model. -/
def renderTenths (n : ℤ) : List Char :=
  (if n < 0 then ['-'] else []) ++
    renderNat (n.natAbs / 10) ++ '.' :: [digitChar (n.natAbs % 10)]

/-! ## Wire vocabulary (tags and tokens, from both firmware sides) -/

def tWeather : List Char := ['W','e','a','t','h','e','r',':']
def tTemp : List Char := ['T','e','m','p',':']
def tHum : List Char := ['H','u','m',':']
def tHm : List Char := ['H','m',':']
def tLight : List Char := ['L','i','g','h','t',' ','l','e','v','e','l',':']
def tLux : List Char := ['L','u','x',':']
def tLx : List Char := ['L','x',':']
def tMoist : List Char := ['M','o','i','s','t','u','r','e',':']
def tValve : List Char := ['V','a','l','v','e',':']

def clearStr : List Char := ['C','l','e','a','r']
def rainingStr : List Char := ['R','a','i','n','i','n','g']
def naStr : List Char := ['N','/','A']
def rainStr : List Char := ['R','A','I','N']
def openStr : List Char := ['O','P','E','N']
def closeStr : List Char := ['C','L','O','S','E']
def trueStr : List Char := ['T','R','U','E']
def falseStr : List Char := ['F','A','L','S','E']
def cmdTrueStr : List Char := ['C','M','D',':','T','R','U','E']
def cmdFalseStr : List Char := ['C','M','D',':','F','A','L','S','E']
def cmdOnStr : List Char := ['C','M','D',':','O','N']
def cmdOffStr : List Char := ['C','M','D',':','O','F','F']
def cmdHead : List Char := ['C','M','D',':']

def modeTopic : List Char := ['I','o','T','-','G','9','/','m','o','d','e']
def soilTopic : List Char := ['I','o','T','-','G','9','/','s','o','i','l']
def cmdTopic : List Char := ['I','o','T','-','G','9','/','c','m','d']

/-! ## Float values (rational or NaN) -/

/-- A firmware `float`: a rational value or NaN. -/
inductive FVal where
  | nan : FVal
  | num (q : ℚ) : FVal
deriving DecidableEq

/-- `isnan`. -/
def FVal.isNaN : FVal → Bool
  | .nan => true
  | .num _ => false

/-- IEEE `<` against a constant: false whenever the value is NaN. -/
def FVal.ltQ : FVal → ℚ → Bool
  | .nan, _ => false
  | .num x, q => decide (x < q)

/-- IEEE `>` against a constant: false whenever the value is NaN. -/
def FVal.gtQ : FVal → ℚ → Bool
  | .nan, _ => false
  | .num x, q => decide (q < x)

/-! ## Gateway telemetry decode (main.cpp lines 228–250) -/

/-- The six global fields the gateway overwrites when a packet arrives. -/
structure Decoded where
  weather : List Char
  tempC : FVal
  humP : FVal
  lux : FVal
  moistP : FVal
  valve : List Char
deriving DecidableEq

/-- Lines 233–250: keep only printable ASCII, then extract each tag.
`extractFloat` always yields a number (never NaN), which is why the
`isnan` fallbacks to the synonym tags are written exactly as in the
source but can never fire. -/
def decodePacket (input : List Char) : Decoded :=
  let raw := input.filter printableC
  let weather := extractStr raw tWeather
  let tempC := FVal.num (extractFloat raw tTemp)
  let hum0 := FVal.num (extractFloat raw tHum)
  let humP := if hum0.isNaN then FVal.num (extractFloat raw tHm) else hum0
  let lux0 := FVal.num (extractFloat raw tLight)
  let lux1 := if lux0.isNaN then FVal.num (extractFloat raw tLux) else lux0
  let lux := if lux1.isNaN then FVal.num (extractFloat raw tLx) else lux1
  let moistP := FVal.num (extractFloat raw tMoist)
  let valve := extractStr raw tValve
  ⟨weather, tempC, humP, lux, moistP, valve⟩

/-! ## Control policy (main.cpp lines 260–271) -/

/-- The two runtime thresholds of the decision (`soilThreshold` is a
mutable global, `SUNLIGHT_THRESHOLD` a local constant the caller passes
as `8.5`). -/
structure Thresholds where
  soilMoistureThresholdPct : ℚ
  sunlightCeilingLux : ℚ
deriving DecidableEq

/-- `const float SUNLIGHT_THRESHOLD = 8.5;` (written as `17/2` in a
kernel-computable form). -/
def sunlightThreshold : ℚ := Rat.divInt 17 2

/-- Lines 261–271:
```cpp
const bool isDry = moistP < soilThreshold;
String weatherUpper = weather; weatherUpper.toUpperCase();
const bool isRaining = weather.length() > 0 && weatherUpper.indexOf("RAIN") != -1;
const bool isTooSunny = lux > SUNLIGHT_THRESHOLD;
bool newCommand = (isDry && !isRaining && !isTooSunny);
```
`true` encodes the Open command (payload `CMD:TRUE`). -/
def desiredCommand (weather : List Char) (moistP lux : FVal) (thr : Thresholds) : Bool :=
  let isDry := moistP.ltQ thr.soilMoistureThresholdPct
  let isRaining := decide (0 < weather.length) && (firstIdx (upperList weather) rainStr).isSome
  let isTooSunny := lux.gtQ thr.sunlightCeilingLux
  isDry && !isRaining && !isTooSunny

/-- The decision the gateway would reach on decoding `input` with soil
threshold `thr` (weather/moisture/light freshly decoded). -/
def decodedDesired (input : List Char) (thr : ℚ) : Bool :=
  let d := decodePacket input
  desiredCommand d.weather d.moistP d.lux ⟨thr, sunlightThreshold⟩

/-! ## Radio side effects -/

/-- Observable LoRa radio actions of the gateway. -/
inductive RadioEv where
  | idle : RadioEv
  | tx (payload : List Char) (ok : Bool) : RadioEv
  | delayMs (n : ℕ) : RadioEv
  | rx : RadioEv
deriving DecidableEq

/-- Number of transmission attempts in a trace. -/
def txCount (evs : List RadioEv) : ℕ :=
  (evs.filter (fun e => match e with | .tx _ _ => true | _ => false)).length

/-- Forget per-attempt success, keeping the shape of the trace. -/
def stripOk (evs : List RadioEv) : List RadioEv :=
  evs.map (fun e => match e with | .tx p _ => .tx p true | e => e)

/-- `for (int i = 0; i < maxRetries; ++i) { send; log; delay(50); }`.
`oks` records, per attempt, whether
`LoRa.beginPacket() && LoRa.print(..) && LoRa.endPacket()` succeeded
(missing entries default to success); a failed attempt is only logged. -/
def burstAttempts (payload : List Char) (oks : List Bool) : ℕ → List RadioEv
  | 0 => []
  | n + 1 =>
      burstAttempts payload oks n ++
        [RadioEv.tx payload (oks.getD n true), RadioEv.delayMs 50]

/-- `maxRetries = 3` in both transmit paths. -/
def maxRetries : ℕ := 3

/-- The full command burst: `LoRa.idle()`, three attempts with their
inter-burst delays, then `LoRa.receive()`. -/
def burstTrace (payload : List Char) (oks : List Bool) : List RadioEv :=
  RadioEv.idle :: burstAttempts payload oks maxRetries ++ [RadioEv.rx]

/-- `"CMD:" + cmd` with `cmd = newCommand ? "TRUE" : "FALSE"`. -/
def cmdPayload (b : Bool) : List Char :=
  cmdHead ++ (if b then trueStr else falseStr)

/-! ## Gateway state and event loop (main.cpp globals and `loop`) -/

/-- The gateway's mutable globals (lines 137–148; connectivity objects,
display and clock are external). -/
structure GwState where
  isManualMode : Bool
  lastCommand : Bool
  soilThreshold : ℚ
  weather : List Char
  valve : List Char
  tempC : FVal
  humP : FVal
  lux : FVal
  moistP : FVal
deriving DecidableEq

/-- Boot values: `isManualMode = true`, `lastCommand = false`,
`soilThreshold = 30.0`, `weather = valve = "N/A"`, numeric fields NaN. -/
def initGwState : GwState :=
  { isManualMode := true
    lastCommand := false
    soilThreshold := 30
    weather := naStr
    valve := naStr
    tempC := .nan
    humP := .nan
    lux := .nan
    moistP := .nan }

/-- The `if(packetReady)` body of `loop` (lines 228–296): decode into the
globals, then in automatic mode evaluate the policy and, only on a changed
decision, update `lastCommand` and burst the command; every path re-arms
reception (`LoRa.receive()` at line 295).  MQTT/OLED publishing is
external output and not modelled. -/
def processPacket (st0 : GwState) (input : List Char) (oks : List Bool) :
    GwState × List RadioEv :=
  let d := decodePacket input
  let st := { st0 with
    weather := d.weather, tempC := d.tempC, humP := d.humP,
    lux := d.lux, moistP := d.moistP, valve := d.valve }
  if st.isManualMode = false then
    let newCommand :=
      desiredCommand st.weather st.moistP st.lux ⟨st.soilThreshold, sunlightThreshold⟩
    if newCommand ≠ st.lastCommand then
      ({ st with lastCommand := newCommand },
        burstTrace (cmdPayload newCommand) oks ++ [RadioEv.rx])
    else (st, [RadioEv.rx])
  else (st, [RadioEv.rx])

/-- `mqttCallback` (lines 320–384).  The message is trimmed and
upper-cased; then the mode, soil-threshold and (manual-mode only) valve
command handlers run.  An invalid soil payload falls through to the
command comparison, which cannot match because the topics differ, so the
else-chain is faithful. -/
def mqttCallbackM (st : GwState) (topic payload : List Char) (oks : List Bool) :
    GwState × List RadioEv :=
  let msg := upperList (trimList payload)
  if topic = modeTopic then
    (if msg = falseStr then { st with isManualMode := true }
     else if msg = trueStr then { st with isManualMode := false }
     else st, [])
  else if topic = soilTopic then
    (if msg.all isDigitC ∧ msg ≠ [] then { st with soilThreshold := atofQ msg }
     else st, [])
  else if topic = cmdTopic ∧ st.isManualMode = true then
    if msg = trueStr ∨ msg = falseStr then
      ({ st with lastCommand := msg = trueStr },
        burstTrace (cmdHead ++ msg) oks)
    else (st, [])
  else (st, [])

/-- An input event of the gateway loop: a drained LoRa frame or an MQTT
message (with the success pattern its transmissions would see). -/
inductive GwEvent where
  | lora (input : List Char) (oks : List Bool) : GwEvent
  | mqtt (topic payload : List Char) (oks : List Bool) : GwEvent
deriving DecidableEq

/-- One iteration step of the gateway on one event. -/
def gwStep (st : GwState) : GwEvent → GwState × List RadioEv
  | .lora input oks => processPacket st input oks
  | .mqtt topic payload oks => mqttCallbackM st topic payload oks

/-- Run the gateway over a sequence of events. -/
def runGw (st : GwState) (evs : List GwEvent) : GwState :=
  evs.foldl (fun s e => (gwStep s e).1) st

/-- Does this event carry the mode-channel `TRUE` (switch to automatic)? -/
def isModeTrueEv : GwEvent → Bool
  | .mqtt topic payload _ => topic == modeTopic && upperList (trimList payload) == trueStr
  | _ => false

/-! ## Field node (arduino.cpp) -/

/-- Field-node actuator state: servo angle and the `valveState` string
echoed in telemetry. -/
structure FieldState where
  servo : ℕ
  valveState : List Char
deriving DecidableEq

/-- arduino.cpp lines 113–131: trim, upper-case, then exact match against
`CMD:TRUE` (open, servo 90) / `CMD:FALSE` (close, servo 0); anything else
is ignored. -/
def arduinoHandleCmd (st : FieldState) (input : List Char) : FieldState :=
  let cmd := upperList (trimList input)
  if cmd = cmdTrueStr then ⟨90, openStr⟩
  else if cmd = cmdFalseStr then ⟨0, closeStr⟩
  else st

/-- uno_code.cpp lines 89–98: the Uno variant matches `CMD:ON` / `CMD:OFF`
and keeps no valve-state string. -/
def unoHandleCmd (servo : ℕ) (input : List Char) : ℕ :=
  let cmd := upperList (trimList input)
  if cmd = cmdOnStr then 90
  else if cmd = cmdOffStr then 0
  else servo

/-- arduino.cpp lines 165–170: the pipe-delimited telemetry packet from
already-rendered field texts. -/
def encodeTelemetry (weather temp hum light moist valve : List Char) : List Char :=
  tWeather ++ weather ++
    '|' :: tTemp ++ temp ++
    '|' :: tHum ++ hum ++
    '|' :: tLight ++ light ++
    '|' :: tMoist ++ moist ++
    '|' :: tValve ++ valve

/-- The packet for a snapshot whose floats are already rounded to tenths:
`weather = isRaining ? "Raining" : "Clear"`, floats via `String(x, 1)`,
moisture via `String(int)`, valve state `OPEN`/`CLOSE`. -/
def fieldPacket (raining : Bool) (t10 h10 l10 : ℤ) (moist : ℕ) (valveOpen : Bool) :
    List Char :=
  encodeTelemetry (if raining then rainingStr else clearStr)
    (renderTenths t10) (renderTenths h10) (renderTenths l10)
    (renderNat moist) (if valveOpen then openStr else closeStr)

/-! ## Sensor conversion (arduino.cpp 223–238, uno_code.cpp 104–113) -/

/-- Arduino's float `mapFloat` helper (lines 260–262). -/
def mapFloat (x in_min in_max out_min out_max : ℚ) : ℚ :=
  (x - in_min) * (out_max - out_min) / (in_max - in_min) + out_min

/-- `constrain` on floats. -/
def constrainQ (x lo hi : ℚ) : ℚ :=
  if x < lo then lo else if hi < x then hi else x

/-- Arduino integer `map` (`long` arithmetic, C division truncates toward
zero). -/
def mapLong (x in_min in_max out_min out_max : ℤ) : ℤ :=
  Int.tdiv ((x - in_min) * (out_max - out_min)) (in_max - in_min) + out_min

/-- `constrain` on integers. -/
def constrainI (x lo hi : ℤ) : ℤ :=
  if x < lo then lo else if hi < x then hi else x

/-- arduino.cpp `readLight`: map the raw reading through
`mapFloat(·, 1200, -100, 0, 10)` and clamp to the 0–10 scale. -/
def readLight (adcReg : ℤ) : ℚ :=
  constrainQ (mapFloat (adcReg : ℚ) 1200 (-100) 0 10) 0 10

/-- `readMoist`: `map(adc, 1023, 300, 0, 100)` clamped to 0–100
(identical in both field nodes). -/
def readMoist (adc : ℤ) : ℤ :=
  constrainI (mapLong adc 1023 300 0 100) 0 100

/-! ## Spec-level weather enumeration and concrete fixtures -/

/-- The spec's `weatherState` enumeration; the wire carries it as text. -/
inductive WeatherState where
  | clear : WeatherState
  | raining : WeatherState
  | unknown : WeatherState
deriving DecidableEq

/-- Wire text of a weather state (`Clear` / `Raining`; `N/A` is the
gateway's boot placeholder for an unknown state). -/
def wireWeather : WeatherState → List Char
  | .clear => clearStr
  | .raining => rainingStr
  | .unknown => naStr

/-- A gateway state that has already decoded one frame:
`tempC = 25.0`, `weather = "Clear"`. -/
def stPrev : GwState :=
  { initGwState with tempC := FVal.num 25, weather := clearStr }

/-- A gateway state switched to automatic mode. -/
def stAuto : GwState :=
  { initGwState with isManualMode := false }

/-- `Weather:Clear|Hum:40.0|Light level:3.0|Moisture:50|Valve:OPEN`
(no `Temp:` tag). -/
def pktNoTemp : List Char :=
  tWeather ++ clearStr ++ '|' :: tHum ++ ['4','0','.','0'] ++
    '|' :: tLight ++ ['3','.','0'] ++ '|' :: tMoist ++ ['5','0'] ++
    '|' :: tValve ++ openStr

/-- `Temp:24.0|Hum:40.0|Light level:3.0|Moisture:50|Valve:OPEN`
(no `Weather:` tag). -/
def pktNoWeather : List Char :=
  tTemp ++ ['2','4','.','0'] ++ '|' :: tHum ++ ['4','0','.','0'] ++
    '|' :: tLight ++ ['3','.','0'] ++ '|' :: tMoist ++ ['5','0'] ++
    '|' :: tValve ++ openStr

/-- Canonical frame: `Weather:Clear|Temp:24.0|Hum:40.0|Light level:3.0|Moisture:50|Valve:OPEN`. -/
def pktHumCanon : List Char :=
  tWeather ++ clearStr ++ '|' :: tTemp ++ ['2','4','.','0'] ++
    '|' :: tHum ++ ['4','0','.','0'] ++ '|' :: tLight ++ ['3','.','0'] ++
    '|' :: tMoist ++ ['5','0'] ++ '|' :: tValve ++ openStr

/-- The same frame carrying humidity under the `Hm:` synonym instead. -/
def pktHmSyn : List Char :=
  tWeather ++ clearStr ++ '|' :: tTemp ++ ['2','4','.','0'] ++
    '|' :: tHm ++ ['4','0','.','0'] ++ '|' :: tLight ++ ['3','.','0'] ++
    '|' :: tMoist ++ ['5','0'] ++ '|' :: tValve ++ openStr

/-- The same frame carrying light under the `Lux:` synonym instead of
`Light level:`. -/
def pktLuxSyn : List Char :=
  tWeather ++ clearStr ++ '|' :: tTemp ++ ['2','4','.','0'] ++
    '|' :: tHum ++ ['4','0','.','0'] ++ '|' :: tLux ++ ['3','.','0'] ++
    '|' :: tMoist ++ ['5','0'] ++ '|' :: tValve ++ openStr

/-- A dry-soil frame: `Weather:Clear|Temp:24.0|Hum:40.0|Light level:3.0|Moisture:10|Valve:CLOSE`. -/
def pktDry : List Char :=
  tWeather ++ clearStr ++ '|' :: tTemp ++ ['2','4','.','0'] ++
    '|' :: tHum ++ ['4','0','.','0'] ++ '|' :: tLight ++ ['3','.','0'] ++
    '|' :: tMoist ++ ['1','0'] ++ '|' :: tValve ++ closeStr

/-- A lower-case command with leading whitespace, for the trim /
case-insensitivity witnesses. -/
def cmdTrueLower : List Char := [' ','c','m','d',':','t','r','u','e']

/-! ## General lemmas about traces and steps -/

theorem txCount_append (a b : List RadioEv) : txCount (a ++ b) = txCount a + txCount b := by
  simp [txCount, List.filter_append]

theorem burstTrace_eq (p : List Char) (oks : List Bool) :
    burstTrace p oks =
      [RadioEv.idle, .tx p (oks.getD 0 true), .delayMs 50, .tx p (oks.getD 1 true),
        .delayMs 50, .tx p (oks.getD 2 true), .delayMs 50, .rx] := by
  show RadioEv.idle :: burstAttempts p oks 3 ++ [RadioEv.rx] = _
  rw [show (3 : ℕ) = 2 + 1 from rfl, burstAttempts,
    show (2 : ℕ) = 1 + 1 from rfl, burstAttempts,
    show (1 : ℕ) = 0 + 1 from rfl, burstAttempts, burstAttempts]
  simp

theorem txCount_burstTrace (p : List Char) (oks : List Bool) :
    txCount (burstTrace p oks) = 3 := by
  rw [burstTrace_eq]
  simp [txCount]

theorem getLast_burstTrace (p : List Char) (oks : List Bool) :
    (burstTrace p oks).getLast? = some RadioEv.rx := by
  rw [burstTrace_eq]
  rfl

theorem txCount_rx : txCount [RadioEv.rx] = 0 := rfl

theorem processPacket_fields (st : GwState) (input : List Char) (oks : List Bool) :
    (processPacket st input oks).1.isManualMode = st.isManualMode ∧
    (processPacket st input oks).1.soilThreshold = st.soilThreshold ∧
    (processPacket st input oks).1.weather = (decodePacket input).weather ∧
    (processPacket st input oks).1.moistP = (decodePacket input).moistP ∧
    (processPacket st input oks).1.lux = (decodePacket input).lux := by
  simp only [processPacket]
  split <;> [skip; exact ⟨rfl, rfl, rfl, rfl, rfl⟩]
  split <;> exact ⟨rfl, rfl, rfl, rfl, rfl⟩

theorem processPacket_manual_trace (st : GwState) (input : List Char) (oks : List Bool)
    (h : st.isManualMode = true) :
    (processPacket st input oks).2 = [RadioEv.rx] := by
  simp only [processPacket]
  split
  · next hc => simp [h] at hc
  · rfl

theorem processPacket_newCommand (st : GwState) (input : List Char) (oks : List Bool)
    (h : st.isManualMode = false) :
    (processPacket st input oks).1.lastCommand = decodedDesired input st.soilThreshold := by
  simp only [processPacket, decodedDesired]
  split
  · split
    · rfl
    · next hne =>
        simp only [ne_eq, not_not] at hne
        exact hne.symm
  · next hc => simp [h] at hc

theorem processPacket_noChange (st : GwState) (input : List Char) (oks : List Bool)
    (h : decodedDesired input st.soilThreshold = st.lastCommand) :
    (processPacket st input oks).2 = [RadioEv.rx] := by
  simp only [processPacket]
  split
  · split
    · next hne =>
        simp only [decodedDesired] at h
        exact absurd h hne
    · rfl
  · rfl

theorem processPacket_fired (st : GwState) (input : List Char) (oks : List Bool)
    (h : txCount (processPacket st input oks).2 ≠ 0) :
    st.isManualMode = false ∧
      decodedDesired input st.soilThreshold ≠ st.lastCommand := by
  constructor
  · by_contra hm
    rw [Bool.not_eq_false] at hm
    rw [processPacket_manual_trace st input oks hm] at h
    exact h rfl
  · intro heq
    rw [processPacket_noChange st input oks heq] at h
    exact h rfl

theorem processPacket_trace_cases (st : GwState) (input : List Char) (oks : List Bool) :
    (processPacket st input oks).2 = [RadioEv.rx] ∨
      ∃ p, (processPacket st input oks).2 = burstTrace p oks ++ [RadioEv.rx] := by
  simp only [processPacket]
  split
  · split
    · exact Or.inr ⟨_, rfl⟩
    · exact Or.inl rfl
  · exact Or.inl rfl

theorem mqtt_trace_cases (st : GwState) (topic payload : List Char) (oks : List Bool) :
    (mqttCallbackM st topic payload oks).2 = [] ∨
      (mqttCallbackM st topic payload oks).2 =
        burstTrace (cmdHead ++ upperList (trimList payload)) oks := by
  simp only [mqttCallbackM]
  split
  · split <;> [exact Or.inl rfl; skip]
    split <;> exact Or.inl rfl
  · split
    · split <;> exact Or.inl rfl
    · split
      · split
        · exact Or.inr rfl
        · exact Or.inl rfl
      · exact Or.inl rfl

theorem mqtt_mode_preserved (st : GwState) (topic payload : List Char) (oks : List Bool)
    (h : (topic == modeTopic && upperList (trimList payload) == trueStr) = false)
    (hm : st.isManualMode = true) :
    (mqttCallbackM st topic payload oks).1.isManualMode = true := by
  simp only [mqttCallbackM]
  split_ifs with h1 h2 h3 h4 h5 h6 <;> simp_all

theorem mqtt_cmd_manual (st : GwState) (payload : List Char) (oks : List Bool)
    (hm : st.isManualMode = true)
    (hv : upperList (trimList payload) = trueStr ∨ upperList (trimList payload) = falseStr) :
    (mqttCallbackM st cmdTopic payload oks).1.lastCommand =
      (upperList (trimList payload) == trueStr) := by
  simp only [mqttCallbackM]
  rw [if_neg (by decide), if_neg (by decide), if_pos ⟨trivial, hm⟩, if_pos hv]
  rcases hv with h | h <;> rw [h] <;> simp [trueStr, falseStr]

theorem mqtt_cmd_auto (st : GwState) (payload : List Char) (oks : List Bool)
    (hm : st.isManualMode = false) :
    mqttCallbackM st cmdTopic payload oks = (st, []) := by
  simp only [mqttCallbackM]
  rw [if_neg (by decide), if_neg (by decide), if_neg (by simp [hm])]

theorem mqtt_mode_other (st : GwState) (payload : List Char) (oks : List Bool)
    (h1 : upperList (trimList payload) ≠ trueStr)
    (h2 : upperList (trimList payload) ≠ falseStr) :
    mqttCallbackM st modeTopic payload oks = (st, []) := by
  simp only [mqttCallbackM]
  rw [if_pos trivial, if_neg h2, if_neg h1]

theorem runGw_cons (st : GwState) (e : GwEvent) (evs : List GwEvent) :
    runGw st (e :: evs) = runGw (gwStep st e).1 evs := rfl

theorem runGw_manual (evs : List GwEvent) : ∀ st : GwState,
    st.isManualMode = true → (∀ e ∈ evs, isModeTrueEv e = false) →
    (runGw st evs).isManualMode = true := by
  induction evs with
  | nil => intro st h _; exact h
  | cons e evs ih =>
      intro st h hall
      rw [runGw_cons]
      refine ih _ ?_ (fun e' he' => hall e' (List.mem_cons_of_mem _ he'))
      have he := hall e (List.mem_cons_self e evs)
      cases e with
      | lora input oks => exact (processPacket_fields st input oks).1.trans h
      | mqtt topic payload oks =>
          exact mqtt_mode_preserved st topic payload oks (by simpa [isModeTrueEv] using he) h

/-! ## Claim theorems -/

/-- Claim C1: the control policy is the pure function
`desiredCommand(snapshot, thresholds) = Open` iff the soil moisture is
below the threshold, the weather state is not Raining, and the light
level is at most the sunlight ceiling; together with the four rows of
the boundary table (`Open` is the Boolean `true`, transmitted as
`CMD:TRUE`). -/
theorem controlPolicy_c1 :
    (∀ (m l : ℚ) (ws : WeatherState) (thr : Thresholds),
        desiredCommand (wireWeather ws) (.num m) (.num l) thr = true ↔
          (m < thr.soilMoistureThresholdPct ∧ ws ≠ WeatherState.raining ∧
            l ≤ thr.sunlightCeilingLux))
    ∧ desiredCommand (wireWeather .clear) (.num 29) (.num 5)
        ⟨30, sunlightThreshold⟩ = true
    ∧ (∀ (ws : WeatherState) (l ceil : ℚ),
        desiredCommand (wireWeather ws) (.num 31) (.num l) ⟨30, ceil⟩ = false)
    ∧ (∀ ceil : ℚ,
        desiredCommand (wireWeather .raining) (.num 10) (.num 5) ⟨30, ceil⟩ = false)
    ∧ desiredCommand (wireWeather .clear) (.num 10) (.num 12) ⟨30, 9⟩ = false := by
  have hC : firstIdx (upperList clearStr) rainStr = none := by decide
  have hR : firstIdx (upperList rainingStr) rainStr = some 0 := by decide
  have hN : firstIdx (upperList naStr) rainStr = none := by decide
  have lC : decide (0 < clearStr.length) = true := by decide
  have lR : decide (0 < rainingStr.length) = true := by decide
  have lN : decide (0 < naStr.length) = true := by decide
  refine ⟨?_, by decide, ?_, ?_, by decide⟩
  · intro m l ws thr
    cases ws <;>
      simp [desiredCommand, wireWeather, FVal.ltQ, FVal.gtQ, hC, hR, hN, lC, lR, lN, not_lt]
  · intro ws l ceil
    cases ws <;>
      simp [desiredCommand, wireWeather, FVal.ltQ, FVal.gtQ, hC, hR, hN, lC, lR, lN] <;>
      norm_num
  · intro ceil
    simp [desiredCommand, wireWeather, FVal.ltQ, FVal.gtQ, hR, lR]

/-- Claim C3 (refuted by the code): decoding a frame that omits a tag is
claimed to leave the stored field "not updated" (NaN for numerics,
previous value for weather/valve).  In fact `extractStr` returns the
empty string for an absent tag and `String::toFloat` turns it into
`0.0`, so a frame without `Temp:` overwrites a previously stored
`tempC = 25.0` with `0.0` (not NaN, not the previous value), and a frame
without `Weather:` overwrites the stored `"Clear"` with the empty
string. -/
theorem decodeOverwrite_c3 :
    stPrev.tempC = FVal.num 25 ∧ stPrev.weather = clearStr
    ∧ (gwStep stPrev (.lora pktNoTemp [])).1.tempC = FVal.num 0
    ∧ FVal.num 0 ≠ FVal.num 25 ∧ FVal.num 0 ≠ FVal.nan
    ∧ (gwStep stPrev (.lora pktNoWeather [])).1.weather = []
    ∧ ([] : List Char) ≠ clearStr := by
  decide

/-- Claim C4 (refuted by the code): the `Hm:` / `Lux:` synonym tags are
claimed to decode identically to the canonical tags.  Because
`extractFloat` of an absent tag yields `0.0` (never NaN), the
`if (isnan(...))` fallbacks to the synonyms can never fire: the same
payload carried under `Hm:` decodes humidity `0` where the canonical
`Hum:` version decodes `40`, and likewise `Lux:` decodes light `0`
where `Light level:` decodes `3`. -/
theorem synonymDead_c4 :
    (decodePacket pktHumCanon).humP = FVal.num 40
    ∧ (decodePacket pktHmSyn).humP = FVal.num 0
    ∧ (decodePacket pktHumCanon).humP ≠ (decodePacket pktHmSyn).humP
    ∧ (decodePacket pktHumCanon).lux = FVal.num 3
    ∧ (decodePacket pktLuxSyn).lux = FVal.num 0
    ∧ (decodePacket pktHumCanon).lux ≠ (decodePacket pktLuxSyn).lux := by
  decide

/-- Claim C10: for every possible raw reading, the field node's
`readLight` lies in `[0, 10]` and `readMoist` in `[0, 100]` — the final
`constrain` clamps both conversions unconditionally, so every encoded
`Light level:` / `Moisture:` value is within its scale. -/
theorem sensorClamp_c10 : ∀ adc : ℤ,
    (0 ≤ readLight adc ∧ readLight adc ≤ 10) ∧
      (0 ≤ readMoist adc ∧ readMoist adc ≤ 100) := by
  intro adc
  constructor
  · unfold readLight constrainQ
    split_ifs with h1 h2 <;> constructor <;> linarith
  · unfold readMoist constrainI
    generalize mapLong adc 1023 300 0 100 = y
    split_ifs with h1 h2 <;> constructor <;> omega

/-- Claim C9: while in Automatic mode, a command-channel message is
ignored entirely — the state (including `lastCommand` and the decoded
snapshot) is unchanged and no radio action happens; and the command
channel can only cause a transmission in Manual mode with a normalized
payload `TRUE` or `FALSE`. -/
theorem cmdIgnoredAuto_c9 :
    (∀ (st : GwState) (payload : List Char) (oks : List Bool),
        st.isManualMode = false →
        gwStep st (.mqtt cmdTopic payload oks) = (st, []))
    ∧ (∀ (st : GwState) (payload : List Char) (oks : List Bool),
        (gwStep st (.mqtt cmdTopic payload oks)).2 ≠ [] →
        st.isManualMode = true ∧
          (upperList (trimList payload) = trueStr ∨
            upperList (trimList payload) = falseStr)) := by
  constructor
  · intro st payload oks hm
    exact mqtt_cmd_auto st payload oks hm
  · intro st payload oks hne
    by_cases hm : st.isManualMode = true
    · refine ⟨hm, ?_⟩
      by_contra hv
      push_neg at hv
      obtain ⟨h1, h2⟩ := hv
      apply hne
      show (mqttCallbackM st cmdTopic payload oks).2 = []
      simp only [mqttCallbackM]
      rw [if_neg (by decide), if_neg (by decide), if_pos ⟨trivial, hm⟩,
        if_neg (by simp [h1, h2])]
    · rw [Bool.not_eq_true] at hm
      simp only [gwStep] at hne
      rw [mqtt_cmd_auto st payload oks hm] at hne
      exact absurd rfl hne

/-- Witness for C9 at concrete inputs: in automatic mode a `TRUE` command
payload leaves the state untouched and produces no radio action. -/
theorem cmdIgnoredAuto_c9_witness :
    stAuto.isManualMode = false ∧
      gwStep stAuto (.mqtt cmdTopic trueStr []) = (stAuto, []) :=
  ⟨by decide, cmdIgnoredAuto_c9.1 stAuto trueStr [] (by decide)⟩

/-- Claim C6: every command issue (automatic or manual) attempts exactly
`maxRetries = 3` transmissions, failures change only the per-attempt
success flag (never the shape or length of the burst), the burst ends
with a return to receive mode, and every gateway step transmits either
nothing or exactly one such burst ending in `LoRa.receive()`. -/
theorem burstRepetition_c6 :
    (∀ (p : List Char) (oks : List Bool), txCount (burstTrace p oks) = 3)
    ∧ (∀ (p : List Char) (oks oks' : List Bool),
        stripOk (burstTrace p oks) = stripOk (burstTrace p oks'))
    ∧ (∀ (p : List Char) (oks : List Bool),
        (burstTrace p oks).getLast? = some RadioEv.rx)
    ∧ (∀ (st : GwState) (e : GwEvent),
        txCount (gwStep st e).2 = 0 ∨
          (txCount (gwStep st e).2 = 3 ∧
            (gwStep st e).2.getLast? = some RadioEv.rx)) := by
  refine ⟨txCount_burstTrace, ?_, getLast_burstTrace, ?_⟩
  · intro p oks oks'
    rw [burstTrace_eq, burstTrace_eq]
    rfl
  · intro st e
    cases e with
    | lora input oks =>
        simp only [gwStep]
        rcases processPacket_trace_cases st input oks with h | ⟨p, h⟩
        · left; rw [h]; rfl
        · right
          rw [h]
          constructor
          · rw [txCount_append, txCount_burstTrace]; rfl
          · rw [List.getLast?_concat]
    | mqtt topic payload oks =>
        simp only [gwStep]
        rcases mqtt_trace_cases st topic payload oks with h | h
        · left; rw [h]; rfl
        · right
          rw [h]
          exact ⟨txCount_burstTrace _ _, getLast_burstTrace _ _⟩

/-- Counterexample to Claim C5 as stated: the Uno field-node variant
(`uno_code.cpp`) does not react to `CMD:TRUE` at all — the valve servo
stays at its previous position — because it matches `CMD:ON`/`CMD:OFF`
instead. -/
theorem fieldCmd_c5_counterexample :
    unoHandleCmd 0 cmdTrueStr = 0 ∧ (0 : ℕ) ≠ 90 ∧
      unoHandleCmd 0 cmdOnStr = 90 ∧ unoHandleCmd 90 cmdOffStr = 0 := by
  decide

/-- Claim C5 (amended): after trimming, the match is case-insensitive
(the payload is upper-cased before comparison).  On the `arduino.cpp`
field node exactly the normalized payload `CMD:TRUE` opens the valve
(servo 90, `valveState = "OPEN"`), exactly `CMD:FALSE` closes it
(servo 0, `valveState = "CLOSE"`), and every other payload is ignored
without error.  The `uno_code.cpp` variant behaves the same way except
that its recognized payloads are `CMD:ON` / `CMD:OFF` and it tracks no
`valveState` string. -/
theorem fieldCmd_c5_amended :
    (∀ (st : FieldState) (input : List Char),
        (upperList (trimList input) = cmdTrueStr →
          arduinoHandleCmd st input = ⟨90, openStr⟩)
        ∧ (upperList (trimList input) = cmdFalseStr →
          arduinoHandleCmd st input = ⟨0, closeStr⟩)
        ∧ (upperList (trimList input) ≠ cmdTrueStr →
          upperList (trimList input) ≠ cmdFalseStr →
          arduinoHandleCmd st input = st))
    ∧ (∀ (servo : ℕ) (input : List Char),
        (upperList (trimList input) = cmdOnStr → unoHandleCmd servo input = 90)
        ∧ (upperList (trimList input) = cmdOffStr → unoHandleCmd servo input = 0)
        ∧ (upperList (trimList input) ≠ cmdOnStr →
          upperList (trimList input) ≠ cmdOffStr →
          unoHandleCmd servo input = servo)) := by
  constructor
  · intro st input
    refine ⟨fun h => ?_, fun h => ?_, fun h1 h2 => ?_⟩
    · simp only [arduinoHandleCmd]
      rw [if_pos h]
    · simp only [arduinoHandleCmd]
      rw [if_neg (by rw [h]; decide), if_pos h]
    · simp only [arduinoHandleCmd]
      rw [if_neg h1, if_neg h2]
  · intro servo input
    refine ⟨fun h => ?_, fun h => ?_, fun h1 h2 => ?_⟩
    · simp only [unoHandleCmd]
      rw [if_pos h]
    · simp only [unoHandleCmd]
      rw [if_neg (by rw [h]; decide), if_pos h]
    · simp only [unoHandleCmd]
      rw [if_neg h1, if_neg h2]

/-- Witness for C5 at a concrete input: the lower-case, padded payload
`" cmd:true"` normalizes to `CMD:TRUE` and opens the arduino.cpp valve. -/
theorem fieldCmd_c5_witness :
    upperList (trimList cmdTrueLower) = cmdTrueStr ∧
      arduinoHandleCmd ⟨0, closeStr⟩ cmdTrueLower = ⟨90, openStr⟩ :=
  ⟨by decide, (fieldCmd_c5_amended.1 ⟨0, closeStr⟩ cmdTrueLower).1 (by decide)⟩

/-- Claim C2: hysteresis.  (i) In automatic mode a packet step transmits
only when the freshly decoded decision differs from `lastCommand`, and
`lastCommand` then holds the new decision; (ii) processing the same
frame twice in a row transmits nothing the second time; (iii) a valid
Manual-mode command updates `lastCommand` to the commanded value; and
(iv) a packet step whose decoded decision equals `lastCommand` transmits
nothing — so an automatic re-entry after a manual command with the same
decision does not re-transmit (mode switches themselves keep
`lastCommand`). -/
theorem hysteresis_c2 :
    (∀ (st : GwState) (input : List Char) (oks : List Bool),
        txCount (gwStep st (.lora input oks)).2 ≠ 0 →
          st.isManualMode = false ∧
          decodedDesired input st.soilThreshold ≠ st.lastCommand ∧
          (gwStep st (.lora input oks)).1.lastCommand =
            decodedDesired input st.soilThreshold)
    ∧ (∀ (st : GwState) (input : List Char) (oks oks' : List Bool),
        txCount (gwStep (gwStep st (.lora input oks)).1 (.lora input oks')).2 = 0)
    ∧ (∀ (st : GwState) (payload : List Char) (oks : List Bool),
        st.isManualMode = true →
        (upperList (trimList payload) = trueStr ∨
          upperList (trimList payload) = falseStr) →
        (gwStep st (.mqtt cmdTopic payload oks)).1.lastCommand =
          (upperList (trimList payload) == trueStr))
    ∧ (∀ (st : GwState) (input : List Char) (oks : List Bool),
        decodedDesired input st.soilThreshold = st.lastCommand →
        txCount (gwStep st (.lora input oks)).2 = 0)
    ∧ (∀ (st : GwState) (payload : List Char) (oks : List Bool),
        (gwStep st (.mqtt modeTopic payload oks)).1.lastCommand =
          st.lastCommand) := by
  refine ⟨?_, ?_, ?_, ?_, ?_⟩
  · intro st input oks h
    simp only [gwStep] at h ⊢
    obtain ⟨hm, hne⟩ := processPacket_fired st input oks h
    exact ⟨hm, hne, processPacket_newCommand st input oks hm⟩
  · intro st input oks oks'
    simp only [gwStep]
    set st1 := (processPacket st input oks).1 with hst1
    by_cases hm : st1.isManualMode = true
    · rw [processPacket_manual_trace st1 input oks' hm]
      rfl
    · rw [Bool.not_eq_true] at hm
      have hm0 : st.isManualMode = false := by
        have := (processPacket_fields st input oks).1
        rw [hst1] at hm
        rw [← this, hm]
      have hthr : st1.soilThreshold = st.soilThreshold :=
        (processPacket_fields st input oks).2.1
      have hlast : st1.lastCommand = decodedDesired input st.soilThreshold :=
        processPacket_newCommand st input oks hm0
      rw [processPacket_noChange st1 input oks' (by rw [hthr, hlast])]
      rfl
  · intro st payload oks hm hv
    simp only [gwStep]
    exact mqtt_cmd_manual st payload oks hm hv
  · intro st input oks h
    simp only [gwStep]
    rw [processPacket_noChange st input oks h]
    rfl
  · intro st payload oks
    simp only [gwStep, mqttCallbackM]
    rw [if_pos trivial]
    split_ifs <;> rfl

/-- Witness for C2 at concrete inputs: from the automatic-mode boot state
(threshold 30, `lastCommand = Close`) the dry frame decodes to the Open
decision, so the first step transmits (count 3) and records it, and the
identical second step transmits nothing; the manual-command part is
exercised with payload `TRUE` from the manual boot state. -/
theorem hysteresis_c2_witness :
    (txCount (gwStep stAuto (.lora pktDry [])).2 ≠ 0 ∧
      stAuto.isManualMode = false ∧
      decodedDesired pktDry stAuto.soilThreshold ≠ stAuto.lastCommand ∧
      (gwStep stAuto (.lora pktDry [])).1.lastCommand =
        decodedDesired pktDry stAuto.soilThreshold) ∧
    txCount (gwStep (gwStep stAuto (.lora pktDry [])).1 (.lora pktDry [])).2 = 0 ∧
    (initGwState.isManualMode = true ∧
      (gwStep initGwState (.mqtt cmdTopic trueStr [])).1.lastCommand =
        (upperList (trimList trueStr) == trueStr)) := by
  refine ⟨⟨by decide, ?_⟩, ?_, by decide, ?_⟩
  · exact hysteresis_c2.1 stAuto pktDry [] (by decide)
  · exact hysteresis_c2.2.1 stAuto pktDry [] []
  · exact hysteresis_c2.2.2.1 initGwState trueStr [] (by decide) (Or.inl (by decide))

/-- Claim C8: the gateway boots in Manual mode (`isManualMode = true`).
As long as no mode-channel message normalizing to `TRUE` arrives, the
mode stays Manual under any event sequence; in Manual mode a received
LoRa frame produces only the re-arm `LoRa.receive()` (the automatic
policy branch transmits nothing); and a mode payload normalizing to
neither `TRUE` nor `FALSE` leaves the state unchanged. -/
theorem bootManual_c8 :
    initGwState.isManualMode = true
    ∧ (∀ evs : List GwEvent, (∀ e ∈ evs, isModeTrueEv e = false) →
        (runGw initGwState evs).isManualMode = true)
    ∧ (∀ (st : GwState) (input : List Char) (oks : List Bool),
        st.isManualMode = true →
        (gwStep st (.lora input oks)).2 = [RadioEv.rx])
    ∧ (∀ (st : GwState) (payload : List Char) (oks : List Bool),
        upperList (trimList payload) ≠ trueStr →
        upperList (trimList payload) ≠ falseStr →
        gwStep st (.mqtt modeTopic payload oks) = (st, [])) := by
  refine ⟨rfl, ?_, ?_, ?_⟩
  · intro evs hall
    exact runGw_manual evs initGwState rfl hall
  · intro st input oks hm
    simp only [gwStep]
    exact processPacket_manual_trace st input oks hm
  · intro st payload oks h1 h2
    simp only [gwStep]
    exact mqtt_mode_other st payload oks h1 h2

/-- Witness for C8 at concrete inputs: a mode-`FALSE` message followed by
a telemetry frame keeps the boot state Manual; a Manual-mode frame step
yields only the re-arm action; and the unrecognized mode payload `ON`
changes nothing. -/
theorem bootManual_c8_witness :
    (runGw initGwState
        [.mqtt modeTopic falseStr [], .lora pktDry []]).isManualMode = true ∧
    (gwStep initGwState (.lora pktDry [])).2 = [RadioEv.rx] ∧
    gwStep initGwState (.mqtt modeTopic ['O','N'] []) = (initGwState, []) := by
  refine ⟨?_, ?_, ?_⟩
  · exact bootManual_c8.2.1 [.mqtt modeTopic falseStr [], .lora pktDry []]
      (by intro e he; fin_cases he <;> decide)
  · exact bootManual_c8.2.2.1 initGwState pktDry [] (by decide)
  · exact bootManual_c8.2.2.2 initGwState ['O','N'] [] (by decide) (by decide)

/-! ## String-scanning lemmas (towards the codec round-trip) -/

theorem isPre_iff (p : List Char) : ∀ s, isPre p s = true ↔ ∃ t, s = p ++ t := by
  induction p with
  | nil => intro s; simp [isPre]
  | cons a p ih =>
      intro s
      cases s with
      | nil => simp [isPre]
      | cons b s =>
          rw [show isPre (a :: p) (b :: s) = (a == b && isPre p s) from rfl,
            Bool.and_eq_true, beq_iff_eq, ih]
          constructor
          · rintro ⟨rfl, t, rfl⟩
            exact ⟨t, rfl⟩
          · rintro ⟨t, ht⟩
            rw [List.cons_append] at ht
            injection ht with h1 h2
            exact ⟨h1.symm, t, h2⟩

theorem isPre_append_self (p t : List Char) : isPre p (p ++ t) = true :=
  (isPre_iff p _).2 ⟨t, rfl⟩

theorem occursIn_cons (c : Char) (pat s : List Char) :
    occursIn pat s → occursIn pat (c :: s) := by
  rintro ⟨u, v, rfl⟩
  exact ⟨c :: u, v, rfl⟩

theorem occursIn_single (c : Char) (s : List Char) : occursIn [c] s ↔ c ∈ s := by
  constructor
  · rintro ⟨u, v, rfl⟩
    simp
  · intro h
    obtain ⟨u, v, rfl⟩ := List.append_of_mem h
    exact ⟨u, v, by simp⟩

theorem firstIdx_append (tag rest : List Char) (htag : tag ≠ []) :
    ∀ pre : List Char, ¬ occursIn tag (pre ++ tag.dropLast) →
      firstIdx (pre ++ (tag ++ rest)) tag = some pre.length := by
  intro pre
  induction pre with
  | nil =>
      intro _
      rw [List.nil_append]
      cases tag with
      | nil => exact absurd rfl htag
      | cons a t =>
          have hp : isPre (a :: t) (a :: (t ++ rest)) = true := isPre_append_self (a :: t) rest
          rw [List.cons_append, firstIdx, if_pos hp]
          rfl
  | cons c pre' ih =>
      intro h
      have h' : ¬ occursIn tag (pre' ++ tag.dropLast) := by
        intro hx
        exact h (occursIn_cons c _ _ hx)
      have hnp : ¬ isPre tag ((c :: pre') ++ (tag ++ rest)) = true := by
        intro hcon
        obtain ⟨t2, ht2⟩ := (isPre_iff tag _).1 hcon
        apply h
        have hL : tag.length ≤ ((c :: pre') ++ tag.dropLast).length := by
          rw [List.length_append, List.length_dropLast, List.length_cons]
          have : 1 ≤ tag.length := List.length_pos.2 htag
          omega
        have htake : ((c :: pre') ++ (tag ++ rest)).take tag.length = tag := by
          rw [ht2, List.take_left' rfl]
        have hsplit : (c :: pre') ++ (tag ++ rest) =
            ((c :: pre') ++ tag.dropLast) ++ (tag.getLast htag :: rest) := by
          have h0 : tag.dropLast ++ (tag.getLast htag :: rest) = tag ++ rest := by
            rw [← List.singleton_append, ← List.append_assoc,
              List.dropLast_append_getLast htag]
          rw [List.append_assoc, h0]
        rw [hsplit, List.take_append_of_le_length hL] at htake
        exact ⟨[], ((c :: pre') ++ tag.dropLast).drop tag.length, by
          rw [List.nil_append]
          conv_lhs => rw [← List.take_append_drop tag.length ((c :: pre') ++ tag.dropLast)]
          rw [htake]⟩
      have hnp' : ¬ isPre tag (c :: (pre' ++ (tag ++ rest))) = true := hnp
      rw [List.cons_append, firstIdx, if_neg hnp', ih h']
      rfl

theorem firstIdx_single_none (c : Char) (s : List Char) (h : c ∉ s) :
    firstIdx s [c] = none := by
  induction s with
  | nil => rfl
  | cons b s ih =>
      rw [firstIdx, if_neg, ih (fun hm => h (List.mem_cons_of_mem _ hm))]
      · rfl
      · show ¬ isPre [c] (b :: s) = true
        rw [show isPre [c] (b :: s) = (c == b && isPre [] s) from rfl]
        simp only [Bool.and_eq_true, beq_iff_eq]
        rintro ⟨rfl, -⟩
        exact h (List.mem_cons_self _ _)

theorem dropWhile_head_false (p : Char → Bool) (l : List Char)
    (h : ∀ c, l.head? = some c → p c = false) : l.dropWhile p = l := by
  cases l with
  | nil => rfl
  | cons a l => rw [List.dropWhile_cons, h a rfl]; rfl

/-- Behaviour of `extractStr` on a string of the shape
`pre ++ tag ++ val ++ rest` where the tag does not occur earlier, the
value carries no separator characters, and what follows is either the
end of the string or the next `|`-delimited field. -/
theorem extractStr_spec (pre tag val rest : List Char) (htag : tag ≠ [])
    (hpre : ¬ occursIn tag (pre ++ tag.dropLast))
    (hsp : (' ' : Char) ∉ val) (hbar : ('|' : Char) ∉ val) (hcomma : (',' : Char) ∉ val)
    (hrest : rest = [] ∨ ∃ r, rest = '|' :: r) :
    extractStr (pre ++ (tag ++ (val ++ rest))) tag = val := by
  have hfi : firstIdx (pre ++ (tag ++ (val ++ rest))) tag = some pre.length :=
    firstIdx_append tag (val ++ rest) htag pre hpre
  have hdrop : (pre ++ (tag ++ (val ++ rest))).drop (pre.length + tag.length) =
      val ++ rest := by
    rw [← List.append_assoc, List.drop_left' (by rw [List.length_append])]
  have hdw : (val ++ rest).dropWhile (fun c => c == ' ') = val ++ rest := by
    apply dropWhile_head_false
    intro c hc
    cases val with
    | nil =>
        rcases hrest with rfl | ⟨r, rfl⟩
        · cases hc
        · rw [List.nil_append] at hc
          injection hc with hc
          rw [← hc]
          rfl
    | cons v vs =>
        injection hc with hc
        rw [← hc]
        simp only [beq_eq_false_iff_ne, ne_eq]
        intro hv
        exact hsp (hv ▸ List.mem_cons_self _ _)
  simp only [extractStr, hfi, hdrop, hdw]
  rcases hrest with rfl | ⟨r, rfl⟩
  · rw [List.append_nil, firstIdx_single_none '|' val hbar,
      firstIdx_single_none ',' val hcomma, List.take_length]
  · have hbi : firstIdx (val ++ ('|' :: r)) ['|'] = some val.length := by
      have : ¬ occursIn ['|'] (val ++ (['|'] : List Char).dropLast) := by
        intro hx
        rw [show (['|'] : List Char).dropLast = [] from rfl, List.append_nil] at hx
        exact hbar ((occursIn_single _ _).1 hx)
      exact firstIdx_append ['|'] r (by decide) val this
    rw [hbi, List.take_left]

theorem no_colon_split (S U V : List Char) (h : (':' : Char) ∉ S) :
    S ≠ U ++ ':' :: V := by
  intro he
  apply h
  rw [he]
  exact List.mem_append.2 (Or.inr (List.mem_cons_self _ _))

theorem colon_anchor (Y : List Char) : ∀ (Z U V : List Char), (':' : Char) ∉ Y →
    Y ++ ':' :: Z = U ++ ':' :: V →
    (U = Y ∧ V = Z) ∨ ∃ U2, U = Y ++ ':' :: U2 ∧ Z = U2 ++ ':' :: V := by
  induction Y with
  | nil =>
      intro Z U V _ h
      cases U with
      | nil =>
          rw [List.nil_append, List.nil_append] at h
          injection h with _ h2
          exact Or.inl ⟨rfl, h2.symm⟩
      | cons u us =>
          rw [List.nil_append, List.cons_append] at h
          injection h with h1 h2
          refine Or.inr ⟨us, ?_, h2⟩
          rw [List.nil_append, ← h1]
  | cons y ys ih =>
      intro Z U V hY h
      cases U with
      | nil =>
          rw [List.cons_append, List.nil_append] at h
          injection h with h1 _
          exact absurd (h1 ▸ List.mem_cons_self y ys) hY
      | cons u us =>
          rw [List.cons_append, List.cons_append] at h
          injection h with h1 h2
          have hY' : (':' : Char) ∉ ys := fun hm => hY (List.mem_cons_of_mem _ hm)
          rcases ih Z us V hY' h2 with ⟨hus, hVZ⟩ | ⟨U2, hu, hz⟩
          · refine Or.inl ⟨?_, hVZ⟩
            rw [hus, h1]
          · refine Or.inr ⟨U2, ?_, hz⟩
            rw [hu, h1, List.cons_append]

theorem append_eq_append_cases (u b a s : List Char) (h : u ++ b = a ++ s) :
    b = s.drop (s.length - b.length) ∨ s = b.drop (b.length - s.length) := by
  have hlen : u.length + b.length = a.length + s.length := by
    have := congrArg List.length h
    simpa [List.length_append] using this
  by_cases hle : b.length ≤ s.length
  · left
    have h1 : b = (u ++ b).drop u.length := (List.drop_left u b).symm
    have h2 : u.length = a.length + (s.length - b.length) := by omega
    rw [h, h2, List.drop_append] at h1
    exact h1
  · right
    have h1 : s = (a ++ s).drop a.length := (List.drop_left a s).symm
    have h2 : a.length = u.length + (b.length - s.length) := by omega
    rw [← h, h2, List.drop_append] at h1
    exact h1

/-! ## Character classes of rendered values -/

theorem digitChar_digit (k : ℕ) : isDigitC (digitChar k) = true := by
  unfold digitChar
  split <;> decide

theorem digitVal_digitChar (k : ℕ) (h : k < 10) : (digitChar k).toNat - 48 = k := by
  interval_cases k <;> decide

theorem digit_class (c : Char) (h : isDigitC c = true) :
    isSpaceC c = false ∧ c ≠ ':' ∧ c ≠ '|' ∧ c ≠ ',' ∧ c ≠ ' ' ∧
      c ≠ '-' ∧ c ≠ '+' ∧ c ≠ '.' ∧ printableC c = true := by
  rw [isDigitC, Bool.and_eq_true, decide_eq_true_eq, decide_eq_true_eq] at h
  obtain ⟨h1, h2⟩ := h
  refine ⟨?_, ?_, ?_, ?_, ?_, ?_, ?_, ?_, ?_⟩
  · rw [isSpaceC]
    simp only [Bool.or_eq_false_iff, beq_eq_false_iff_ne, ne_eq]
    refine ⟨⟨⟨⟨⟨?_, ?_⟩, ?_⟩, ?_⟩, ?_⟩, ?_⟩ <;>
      (rintro rfl; revert h1 h2; decide)
  · rintro rfl; revert h1 h2; decide
  · rintro rfl; revert h1 h2; decide
  · rintro rfl; revert h1 h2; decide
  · rintro rfl; revert h1 h2; decide
  · rintro rfl; revert h1 h2; decide
  · rintro rfl; revert h1 h2; decide
  · rintro rfl; revert h1 h2; decide
  · rw [printableC, Bool.and_eq_true, decide_eq_true_eq, decide_eq_true_eq]
    omega

theorem head?_mem (l : List Char) (c : Char) (h : l.head? = some c) : c ∈ l := by
  cases l with
  | nil => cases h
  | cons a l =>
      injection h with h
      rw [← h]
      exact List.mem_cons_self _ _

/-! ## Properties of the decimal renderers -/

theorem renderNat_digits (n : ℕ) : ∀ c ∈ renderNat n, isDigitC c = true := by
  induction n using Nat.strong_induction_on with
  | _ n ih =>
      rw [renderNat]
      split
      · intro c hc
        rw [List.mem_singleton] at hc
        rw [hc]
        exact digitChar_digit n
      · next hge =>
          intro c hc
          rcases List.mem_append.1 hc with hc | hc
          · exact ih (n / 10) (Nat.div_lt_self (by omega) (by omega)) c hc
          · rw [List.mem_singleton] at hc
            rw [hc]
            exact digitChar_digit _

theorem renderNat_ne_nil (n : ℕ) : renderNat n ≠ [] := by
  rw [renderNat]
  split <;> simp

theorem renderTenths_mem (n : ℤ) : ∀ c ∈ renderTenths n,
    isDigitC c = true ∨ c = '.' ∨ c = '-' := by
  intro c hc
  rw [renderTenths] at hc
  rcases List.mem_append.1 hc with hc | hc
  · rcases List.mem_append.1 hc with hc | hc
    · split at hc
      · rw [List.mem_singleton] at hc
        exact Or.inr (Or.inr hc)
      · cases hc
    · exact Or.inl (renderNat_digits _ c hc)
  · rcases List.mem_cons.1 hc with hc | hc
    · exact Or.inr (Or.inl hc)
    · rw [List.mem_singleton] at hc
      rw [hc]
      exact Or.inl (digitChar_digit _)

theorem renderTenths_classes (n : ℤ) :
    (':' : Char) ∉ renderTenths n ∧ ('|' : Char) ∉ renderTenths n ∧
      ((',') : Char) ∉ renderTenths n ∧ ((' ') : Char) ∉ renderTenths n ∧
      ∀ c ∈ renderTenths n, printableC c = true := by
  refine ⟨?_, ?_, ?_, ?_, ?_⟩
  · intro hm
    rcases renderTenths_mem n ':' hm with h | h | h
    · exact (digit_class ':' h).2.1 rfl
    · exact absurd h (by decide)
    · exact absurd h (by decide)
  · intro hm
    rcases renderTenths_mem n '|' hm with h | h | h
    · exact (digit_class '|' h).2.2.1 rfl
    · exact absurd h (by decide)
    · exact absurd h (by decide)
  · intro hm
    rcases renderTenths_mem n ',' hm with h | h | h
    · exact (digit_class ',' h).2.2.2.1 rfl
    · exact absurd h (by decide)
    · exact absurd h (by decide)
  · intro hm
    rcases renderTenths_mem n ' ' hm with h | h | h
    · exact (digit_class ' ' h).2.2.2.2.1 rfl
    · exact absurd h (by decide)
    · exact absurd h (by decide)
  · intro c hm
    rcases renderTenths_mem n c hm with h | h | h
    · exact (digit_class c h).2.2.2.2.2.2.2.2
    · rw [h]; decide
    · rw [h]; decide

theorem renderNat_classes (m : ℕ) :
    (':' : Char) ∉ renderNat m ∧ ('|' : Char) ∉ renderNat m ∧
      ((',') : Char) ∉ renderNat m ∧ ((' ') : Char) ∉ renderNat m ∧
      ∀ c ∈ renderNat m, printableC c = true := by
  refine ⟨?_, ?_, ?_, ?_, ?_⟩
  · intro hm; exact (digit_class ':' (renderNat_digits m ':' hm)).2.1 rfl
  · intro hm; exact (digit_class '|' (renderNat_digits m '|' hm)).2.2.1 rfl
  · intro hm; exact (digit_class ',' (renderNat_digits m ',' hm)).2.2.2.1 rfl
  · intro hm; exact (digit_class ' ' (renderNat_digits m ' ' hm)).2.2.2.2.1 rfl
  · intro c hm; exact (digit_class c (renderNat_digits m c hm)).2.2.2.2.2.2.2.2

/-! ## Parsing the rendered decimals back -/

theorem digitsToNat_go (b : List Char) : ∀ i : ℕ,
    b.foldl (fun a c => 10 * a + (c.toNat - 48)) i =
      i * 10 ^ b.length + digitsToNat b := by
  induction b with
  | nil => intro i; simp [digitsToNat]
  | cons c b ih =>
      intro i
      rw [List.foldl_cons, ih, show digitsToNat (c :: b) =
        List.foldl (fun a c => 10 * a + (c.toNat - 48)) (10 * 0 + (c.toNat - 48)) b
        from rfl, ih]
      rw [List.length_cons, pow_succ]
      ring

theorem digitsToNat_append (a b : List Char) :
    digitsToNat (a ++ b) = digitsToNat a * 10 ^ b.length + digitsToNat b := by
  rw [digitsToNat, List.foldl_append, ← digitsToNat, digitsToNat_go]

theorem digitsToNat_renderNat (n : ℕ) : digitsToNat (renderNat n) = n := by
  induction n using Nat.strong_induction_on with
  | _ n ih =>
      rw [renderNat]
      split
      · next h =>
          show 10 * 0 + ((digitChar n).toNat - 48) = n
          rw [digitVal_digitChar n h]
          omega
      · next h =>
          rw [digitsToNat_append, ih (n / 10) (Nat.div_lt_self (by omega) (by omega))]
          have hd : digitsToNat [digitChar (n % 10)] = n % 10 := by
            show 10 * 0 + ((digitChar (n % 10)).toNat - 48) = n % 10
            rw [digitVal_digitChar _ (Nat.mod_lt _ (by omega))]
            omega
          rw [hd]
          simp only [List.length_singleton, pow_one]
          omega

theorem takeWhile_head_false (p : Char → Bool) (l : List Char)
    (h : ∀ c, l.head? = some c → p c = false) : l.takeWhile p = [] := by
  cases l with
  | nil => rfl
  | cons a l =>
      rw [List.takeWhile_cons, h a rfl]
      rfl

theorem takeWhile_all (p : Char → Bool) (l : List Char) (h : ∀ c ∈ l, p c = true) :
    l.takeWhile p = l := by
  have := @List.takeWhile_append_of_pos Char p l [] h
  rw [List.append_nil] at this
  rw [this, List.takeWhile_nil, List.append_nil]

theorem dropWhile_all (p : Char → Bool) (l : List Char) (h : ∀ c ∈ l, p c = true) :
    l.dropWhile p = [] := by
  have := @List.dropWhile_append_of_pos Char p l [] h
  rw [List.append_nil] at this
  rw [this, List.dropWhile_nil]

theorem atofQ_plain (neg : Bool) (ip fp : List Char)
    (hip : ∀ c ∈ ip, isDigitC c = true) (hfp : ∀ c ∈ fp, isDigitC c = true)
    (hne : ip ≠ []) :
    atofQ ((if neg then ['-'] else []) ++ (ip ++ '.' :: fp)) =
      Rat.divInt
        ((if neg then -1 else 1) *
          (digitsToNat ip * 10 ^ fp.length + digitsToNat fp))
        (10 ^ fp.length) := by
  obtain ⟨c0, ip', rfl⟩ := List.exists_cons_of_ne_nil hne
  have hc0 : isDigitC c0 = true := hip c0 (List.mem_cons_self _ _)
  have htake : ((c0 :: ip') ++ '.' :: fp).takeWhile isDigitC = c0 :: ip' := by
    rw [List.takeWhile_append_of_pos hip, takeWhile_head_false isDigitC ('.' :: fp)
      (by intro c hc; injection hc with hc; rw [← hc]; decide), List.append_nil]
  have hdrop : ((c0 :: ip') ++ '.' :: fp).dropWhile isDigitC = '.' :: fp := by
    rw [List.dropWhile_append_of_pos hip]
    apply dropWhile_head_false
    intro c hc
    injection hc with hc
    rw [← hc]
    decide
  have htake' : (c0 :: (ip' ++ '.' :: fp)).takeWhile isDigitC = c0 :: ip' := htake
  have hdrop' : (c0 :: (ip' ++ '.' :: fp)).dropWhile isDigitC = '.' :: fp := hdrop
  have hfpt : List.takeWhile isDigitC fp = fp := takeWhile_all isDigitC fp hfp
  have hdsh : ∀ c, isDigitC c = true →
      (c :: (ip' ++ '.' :: fp)).dropWhile isSpaceC = c :: (ip' ++ '.' :: fp) := by
    intro c hcd
    apply dropWhile_head_false
    intro d hd
    injection hd with hd
    rw [← hd]
    exact (digit_class c hcd).1
  cases neg with
  | true =>
      have hds : (('-' :: (c0 :: (ip' ++ '.' :: fp))) : List Char).dropWhile isSpaceC
          = '-' :: (c0 :: (ip' ++ '.' :: fp)) := by
        apply dropWhile_head_false
        intro c hc
        injection hc with hc
        rw [← hc]
        decide
      show atofQ ('-' :: (c0 :: (ip' ++ '.' :: fp))) = _
      simp only [atofQ, hds, List.head?_cons, List.tail_cons,
        show ((some '-' == some '-') : Bool) = true from rfl, Bool.true_or, if_true,
        htake', hdrop', show ((some '.' == some '.') : Bool) = true from rfl, hfpt]
      simp
  | false =>
      have hm : ((some c0 == some '-') : Bool) = false := by
        simp only [Option.some.injEq, beq_eq_false_iff_ne, ne_eq]
        exact (digit_class c0 hc0).2.2.2.2.2.1
      have hp2 : ((some c0 == some '+') : Bool) = false := by
        simp only [Option.some.injEq, beq_eq_false_iff_ne, ne_eq]
        exact (digit_class c0 hc0).2.2.2.2.2.2.1
      show atofQ (c0 :: (ip' ++ '.' :: fp)) = _
      simp only [atofQ, hdsh c0 hc0, List.head?_cons, hm, hp2, Bool.or_self,
        if_false, htake', hdrop',
        show ((some '.' == some '.') : Bool) = true from rfl, List.tail_cons, hfpt]
      simp [htake', hdrop', hfpt]

theorem atofQ_digits (ip : List Char) (hip : ∀ c ∈ ip, isDigitC c = true)
    (hne : ip ≠ []) : atofQ ip = (digitsToNat ip : ℚ) := by
  obtain ⟨c0, ip', rfl⟩ := List.exists_cons_of_ne_nil hne
  have hc0 : isDigitC c0 = true := hip c0 (List.mem_cons_self _ _)
  have hds : (c0 :: ip').dropWhile isSpaceC = c0 :: ip' := by
    apply dropWhile_head_false
    intro d hd
    injection hd with hd
    rw [← hd]
    exact (digit_class c0 hc0).1
  have hm : ((some c0 == some '-') : Bool) = false := by
    simp only [Option.some.injEq, beq_eq_false_iff_ne, ne_eq]
    exact (digit_class c0 hc0).2.2.2.2.2.1
  have hp2 : ((some c0 == some '+') : Bool) = false := by
    simp only [Option.some.injEq, beq_eq_false_iff_ne, ne_eq]
    exact (digit_class c0 hc0).2.2.2.2.2.2.1
  have htake : (c0 :: ip').takeWhile isDigitC = c0 :: ip' := takeWhile_all _ _ hip
  have hdrop : (c0 :: ip').dropWhile isDigitC = [] := dropWhile_all _ _ hip
  simp only [atofQ, hds, List.head?_cons, hm, hp2, Bool.or_self, if_false,
    htake, hdrop]
  norm_num [Rat.divInt_eq_div, htake, hdrop, digitsToNat]

theorem atofQ_renderNat (m : ℕ) : atofQ (renderNat m) = (m : ℚ) := by
  rw [atofQ_digits (renderNat m) (renderNat_digits m) (renderNat_ne_nil m),
    digitsToNat_renderNat]

theorem atofQ_renderTenths (n : ℤ) : atofQ (renderTenths n) = (n : ℚ) / 10 := by
  have hsingle : digitsToNat [digitChar (n.natAbs % 10)] = n.natAbs % 10 := by
    show 10 * 0 + ((digitChar (n.natAbs % 10)).toNat - 48) = n.natAbs % 10
    rw [digitVal_digitChar _ (Nat.mod_lt _ (by omega))]
    omega
  by_cases hn : n < 0
  · have h1 : renderTenths n = (if true then ['-'] else []) ++
        (renderNat (n.natAbs / 10) ++ '.' :: [digitChar (n.natAbs % 10)]) := by
      rw [renderTenths, if_pos hn, List.append_assoc]
      rfl
    rw [h1, atofQ_plain true _ _ (renderNat_digits _)
      (by intro c hc; rw [List.mem_singleton] at hc; rw [hc]; exact digitChar_digit _)
      (renderNat_ne_nil _)]
    rw [digitsToNat_renderNat, hsingle]
    rw [Rat.divInt_eq_div]
    have harith : ((if true then (-1 : ℤ) else 1) *
        (↑(n.natAbs / 10) * 10 ^ ([digitChar (n.natAbs % 10)] : List Char).length +
          ↑(n.natAbs % 10))) = n := by
      simp only [if_true, List.length_singleton, pow_one]
      omega
    rw [harith]
    norm_num
  · have h1 : renderTenths n = (if false then ['-'] else []) ++
        (renderNat (n.natAbs / 10) ++ '.' :: [digitChar (n.natAbs % 10)]) := by
      rw [renderTenths, if_neg hn, List.append_assoc]
      rfl
    rw [h1, atofQ_plain false _ _ (renderNat_digits _)
      (by intro c hc; rw [List.mem_singleton] at hc; rw [hc]; exact digitChar_digit _)
      (renderNat_ne_nil _)]
    rw [digitsToNat_renderNat, hsingle]
    rw [Rat.divInt_eq_div]
    have harith : ((if false then (-1 : ℤ) else 1) *
        (↑(n.natAbs / 10) * 10 ^ ([digitChar (n.natAbs % 10)] : List Char).length +
          ↑(n.natAbs % 10))) = n := by
      simp only [Bool.false_eq_true, if_false, List.length_singleton, pow_one]
      omega
    rw [harith]
    norm_num

theorem occursIn_length (pat X : List Char) (h : occursIn pat X) :
    pat.length ≤ X.length := by
  obtain ⟨u, v, rfl⟩ := h
  simp [List.length_append]
  omega

theorem noEarly_temp (w : List Char) (hw : (':' : Char) ∉ w) :
    ¬ occursIn tTemp ((tWeather ++ (w ++ ['|'])) ++ tTemp.dropLast) := by
  rw [show ((tWeather ++ (w ++ ['|'])) ++ tTemp.dropLast : List Char) =
    ['W','e','a','t','h','e','r'] ++ ':' :: (w ++ ['|','T','e','m','p']) from by
      simp [tWeather, tTemp, List.append_assoc]]
  rintro ⟨u, v, he⟩
  have he' : (['W','e','a','t','h','e','r'] : List Char) ++
      ':' :: (w ++ ['|','T','e','m','p']) = (u ++ ['T','e','m','p']) ++ ':' :: v := by
    rw [he]
    simp [tTemp, List.append_assoc]
  rcases colon_anchor _ _ _ _ (by decide) he' with ⟨hu, _⟩ | ⟨U2, hu, hz⟩
  · rcases append_eq_append_cases u ['T','e','m','p'] []
      ['W','e','a','t','h','e','r'] (by rw [hu]; rfl) with h | h <;>
      exact absurd h (by decide)
  · exact no_colon_split _ U2 v (by
      intro hm
      rcases List.mem_append.1 hm with hm | hm
      · exact hw hm
      · revert hm; decide) hz

theorem noEarly_hum (w vt : List Char) (hw : (':' : Char) ∉ w)
    (hvt : (':' : Char) ∉ vt) :
    ¬ occursIn tHum
      ((tWeather ++ (w ++ '|' :: (tTemp ++ (vt ++ ['|'])))) ++ tHum.dropLast) := by
  rw [show ((tWeather ++ (w ++ '|' :: (tTemp ++ (vt ++ ['|'])))) ++ tHum.dropLast :
      List Char) = ['W','e','a','t','h','e','r'] ++
      ':' :: ((w ++ ['|','T','e','m','p']) ++ ':' :: (vt ++ ['|','H','u','m'])) from by
      simp [tWeather, tTemp, tHum, List.append_assoc]]
  rintro ⟨u, v, he⟩
  have he' : (['W','e','a','t','h','e','r'] : List Char) ++
      ':' :: ((w ++ ['|','T','e','m','p']) ++ ':' :: (vt ++ ['|','H','u','m'])) =
      (u ++ ['H','u','m']) ++ ':' :: v := by
    rw [he]
    simp [tHum, List.append_assoc]
  rcases colon_anchor _ _ _ _ (by decide) he' with ⟨hu, _⟩ | ⟨U2, hu, hz⟩
  · rcases append_eq_append_cases u ['H','u','m'] []
      ['W','e','a','t','h','e','r'] (by rw [hu]; rfl) with h | h <;>
      exact absurd h (by decide)
  · have hY2 : (':' : Char) ∉ (w ++ ['|','T','e','m','p'] : List Char) := by
      intro hm
      rcases List.mem_append.1 hm with hm | hm
      · exact hw hm
      · revert hm; decide
    rcases colon_anchor _ _ _ _ hY2 hz with ⟨hu2, _⟩ | ⟨U3, _, hz2⟩
    · rw [hu2] at hu
      rcases append_eq_append_cases u ['H','u','m']
        (['W','e','a','t','h','e','r',':'] ++ w) ['|','T','e','m','p']
        (by rw [hu]; simp [List.append_assoc]) with h | h <;>
        exact absurd h (by decide)
    · exact no_colon_split _ U3 v (by
        intro hm
        rcases List.mem_append.1 hm with hm | hm
        · exact hvt hm
        · revert hm; decide) hz2

theorem noEarly_light (w vt vh : List Char) (hw : (':' : Char) ∉ w)
    (hvt : (':' : Char) ∉ vt) (hvh : (':' : Char) ∉ vh) :
    ¬ occursIn tLight
      ((tWeather ++ (w ++ '|' :: (tTemp ++ (vt ++ '|' :: (tHum ++ (vh ++ ['|'])))))) ++
        tLight.dropLast) := by
  rw [show ((tWeather ++ (w ++ '|' :: (tTemp ++ (vt ++ '|' :: (tHum ++ (vh ++ ['|'])))))) ++
      tLight.dropLast : List Char) =
      ['W','e','a','t','h','e','r'] ++ ':' :: ((w ++ ['|','T','e','m','p']) ++ ':' ::
        ((vt ++ ['|','H','u','m']) ++ ':' ::
          (vh ++ ['|','L','i','g','h','t',' ','l','e','v','e','l']))) from by
      simp [tWeather, tTemp, tHum, tLight, List.append_assoc]]
  rintro ⟨u, v, he⟩
  have he' : (['W','e','a','t','h','e','r'] : List Char) ++
      ':' :: ((w ++ ['|','T','e','m','p']) ++ ':' :: ((vt ++ ['|','H','u','m']) ++ ':' ::
        (vh ++ ['|','L','i','g','h','t',' ','l','e','v','e','l']))) =
      (u ++ ['L','i','g','h','t',' ','l','e','v','e','l']) ++ ':' :: v := by
    rw [he]
    simp [tLight, List.append_assoc]
  rcases colon_anchor _ _ _ _ (by decide) he' with ⟨hu, _⟩ | ⟨U2, hu, hz⟩
  · rcases append_eq_append_cases u ['L','i','g','h','t',' ','l','e','v','e','l'] []
      ['W','e','a','t','h','e','r'] (by rw [hu]; rfl) with h | h <;>
      exact absurd h (by decide)
  · have hY2 : (':' : Char) ∉ (w ++ ['|','T','e','m','p'] : List Char) := by
      intro hm
      rcases List.mem_append.1 hm with hm | hm
      · exact hw hm
      · revert hm; decide
    rcases colon_anchor _ _ _ _ hY2 hz with ⟨hu2, _⟩ | ⟨U3, hu2, hz2⟩
    · rw [hu2] at hu
      rcases append_eq_append_cases u ['L','i','g','h','t',' ','l','e','v','e','l']
        (['W','e','a','t','h','e','r',':'] ++ w) ['|','T','e','m','p']
        (by rw [hu]; simp [List.append_assoc]) with h | h <;>
        exact absurd h (by decide)
    · have hY3 : (':' : Char) ∉ (vt ++ ['|','H','u','m'] : List Char) := by
        intro hm
        rcases List.mem_append.1 hm with hm | hm
        · exact hvt hm
        · revert hm; decide
      rcases colon_anchor _ _ _ _ hY3 hz2 with ⟨hu3, _⟩ | ⟨U4, _, hz3⟩
      · rw [hu3] at hu2
        rw [hu2] at hu
        rcases append_eq_append_cases u ['L','i','g','h','t',' ','l','e','v','e','l']
          (['W','e','a','t','h','e','r',':'] ++ w ++ ['|','T','e','m','p',':'] ++ vt)
          ['|','H','u','m']
          (by rw [hu]; simp [List.append_assoc]) with h | h <;>
          exact absurd h (by decide)
      · exact no_colon_split _ U4 v (by
          intro hm
          rcases List.mem_append.1 hm with hm | hm
          · exact hvh hm
          · revert hm; decide) hz3

theorem noEarly_moist (w vt vh vl : List Char) (hw : (':' : Char) ∉ w)
    (hvt : (':' : Char) ∉ vt) (hvh : (':' : Char) ∉ vh) (hvl : (':' : Char) ∉ vl) :
    ¬ occursIn tMoist
      ((tWeather ++ (w ++ '|' :: (tTemp ++ (vt ++ '|' :: (tHum ++ (vh ++ '|' ::
        (tLight ++ (vl ++ ['|'])))))))) ++ tMoist.dropLast) := by
  rw [show ((tWeather ++ (w ++ '|' :: (tTemp ++ (vt ++ '|' :: (tHum ++ (vh ++ '|' ::
      (tLight ++ (vl ++ ['|'])))))))) ++ tMoist.dropLast : List Char) =
      ['W','e','a','t','h','e','r'] ++ ':' :: ((w ++ ['|','T','e','m','p']) ++ ':' ::
        ((vt ++ ['|','H','u','m']) ++ ':' ::
          ((vh ++ ['|','L','i','g','h','t',' ','l','e','v','e','l']) ++ ':' ::
            (vl ++ ['|','M','o','i','s','t','u','r','e'])))) from by
      simp [tWeather, tTemp, tHum, tLight, tMoist, List.append_assoc]]
  rintro ⟨u, v, he⟩
  have he' : (['W','e','a','t','h','e','r'] : List Char) ++
      ':' :: ((w ++ ['|','T','e','m','p']) ++ ':' :: ((vt ++ ['|','H','u','m']) ++ ':' ::
        ((vh ++ ['|','L','i','g','h','t',' ','l','e','v','e','l']) ++ ':' ::
          (vl ++ ['|','M','o','i','s','t','u','r','e'])))) =
      (u ++ ['M','o','i','s','t','u','r','e']) ++ ':' :: v := by
    rw [he]
    simp [tMoist, List.append_assoc]
  rcases colon_anchor _ _ _ _ (by decide) he' with ⟨hu, _⟩ | ⟨U2, hu, hz⟩
  · rcases append_eq_append_cases u ['M','o','i','s','t','u','r','e'] []
      ['W','e','a','t','h','e','r'] (by rw [hu]; rfl) with h | h <;>
      exact absurd h (by decide)
  · have hY2 : (':' : Char) ∉ (w ++ ['|','T','e','m','p'] : List Char) := by
      intro hm
      rcases List.mem_append.1 hm with hm | hm
      · exact hw hm
      · revert hm; decide
    rcases colon_anchor _ _ _ _ hY2 hz with ⟨hu2, _⟩ | ⟨U3, hu2, hz2⟩
    · rw [hu2] at hu
      rcases append_eq_append_cases u ['M','o','i','s','t','u','r','e']
        (['W','e','a','t','h','e','r',':'] ++ w) ['|','T','e','m','p']
        (by rw [hu]; simp [List.append_assoc]) with h | h <;>
        exact absurd h (by decide)
    · have hY3 : (':' : Char) ∉ (vt ++ ['|','H','u','m'] : List Char) := by
        intro hm
        rcases List.mem_append.1 hm with hm | hm
        · exact hvt hm
        · revert hm; decide
      rcases colon_anchor _ _ _ _ hY3 hz2 with ⟨hu3, _⟩ | ⟨U4, hu3, hz3⟩
      · rw [hu3] at hu2
        rw [hu2] at hu
        rcases append_eq_append_cases u ['M','o','i','s','t','u','r','e']
          (['W','e','a','t','h','e','r',':'] ++ w ++ ['|','T','e','m','p',':'] ++ vt)
          ['|','H','u','m']
          (by rw [hu]; simp [List.append_assoc]) with h | h <;>
          exact absurd h (by decide)
      · have hY4 : (':' : Char) ∉
            (vh ++ ['|','L','i','g','h','t',' ','l','e','v','e','l'] : List Char) := by
          intro hm
          rcases List.mem_append.1 hm with hm | hm
          · exact hvh hm
          · revert hm; decide
        rcases colon_anchor _ _ _ _ hY4 hz3 with ⟨hu4, _⟩ | ⟨U5, _, hz4⟩
        · rw [hu4] at hu3
          rw [hu3] at hu2
          rw [hu2] at hu
          rcases append_eq_append_cases u ['M','o','i','s','t','u','r','e']
            (['W','e','a','t','h','e','r',':'] ++ w ++ ['|','T','e','m','p',':'] ++ vt ++
              ['|','H','u','m',':'] ++ vh)
            ['|','L','i','g','h','t',' ','l','e','v','e','l']
            (by rw [hu]; simp [List.append_assoc]) with h | h <;>
            exact absurd h (by decide)
        · exact no_colon_split _ U5 v (by
            intro hm
            rcases List.mem_append.1 hm with hm | hm
            · exact hvl hm
            · revert hm; decide) hz4

theorem noEarly_valve (w vt vh vl vm : List Char) (hw : (':' : Char) ∉ w)
    (hvt : (':' : Char) ∉ vt) (hvh : (':' : Char) ∉ vh) (hvl : (':' : Char) ∉ vl)
    (hvm : (':' : Char) ∉ vm) :
    ¬ occursIn tValve
      ((tWeather ++ (w ++ '|' :: (tTemp ++ (vt ++ '|' :: (tHum ++ (vh ++ '|' ::
        (tLight ++ (vl ++ '|' :: (tMoist ++ (vm ++ ['|'])))))))))) ++
        tValve.dropLast) := by
  rw [show ((tWeather ++ (w ++ '|' :: (tTemp ++ (vt ++ '|' :: (tHum ++ (vh ++ '|' ::
      (tLight ++ (vl ++ '|' :: (tMoist ++ (vm ++ ['|'])))))))))) ++
      tValve.dropLast : List Char) =
      ['W','e','a','t','h','e','r'] ++ ':' :: ((w ++ ['|','T','e','m','p']) ++ ':' ::
        ((vt ++ ['|','H','u','m']) ++ ':' ::
          ((vh ++ ['|','L','i','g','h','t',' ','l','e','v','e','l']) ++ ':' ::
            ((vl ++ ['|','M','o','i','s','t','u','r','e']) ++ ':' ::
              (vm ++ ['|','V','a','l','v','e']))))) from by
      simp [tWeather, tTemp, tHum, tLight, tMoist, tValve, List.append_assoc]]
  rintro ⟨u, v, he⟩
  have he' : (['W','e','a','t','h','e','r'] : List Char) ++
      ':' :: ((w ++ ['|','T','e','m','p']) ++ ':' :: ((vt ++ ['|','H','u','m']) ++ ':' ::
        ((vh ++ ['|','L','i','g','h','t',' ','l','e','v','e','l']) ++ ':' ::
          ((vl ++ ['|','M','o','i','s','t','u','r','e']) ++ ':' ::
            (vm ++ ['|','V','a','l','v','e']))))) =
      (u ++ ['V','a','l','v','e']) ++ ':' :: v := by
    rw [he]
    simp [tValve, List.append_assoc]
  rcases colon_anchor _ _ _ _ (by decide) he' with ⟨hu, _⟩ | ⟨U2, hu, hz⟩
  · rcases append_eq_append_cases u ['V','a','l','v','e'] []
      ['W','e','a','t','h','e','r'] (by rw [hu]; rfl) with h | h <;>
      exact absurd h (by decide)
  · have hY2 : (':' : Char) ∉ (w ++ ['|','T','e','m','p'] : List Char) := by
      intro hm
      rcases List.mem_append.1 hm with hm | hm
      · exact hw hm
      · revert hm; decide
    rcases colon_anchor _ _ _ _ hY2 hz with ⟨hu2, _⟩ | ⟨U3, hu2, hz2⟩
    · rw [hu2] at hu
      rcases append_eq_append_cases u ['V','a','l','v','e']
        (['W','e','a','t','h','e','r',':'] ++ w) ['|','T','e','m','p']
        (by rw [hu]; simp [List.append_assoc]) with h | h <;>
        exact absurd h (by decide)
    · have hY3 : (':' : Char) ∉ (vt ++ ['|','H','u','m'] : List Char) := by
        intro hm
        rcases List.mem_append.1 hm with hm | hm
        · exact hvt hm
        · revert hm; decide
      rcases colon_anchor _ _ _ _ hY3 hz2 with ⟨hu3, _⟩ | ⟨U4, hu3, hz3⟩
      · rw [hu3] at hu2
        rw [hu2] at hu
        rcases append_eq_append_cases u ['V','a','l','v','e']
          (['W','e','a','t','h','e','r',':'] ++ w ++ ['|','T','e','m','p',':'] ++ vt)
          ['|','H','u','m']
          (by rw [hu]; simp [List.append_assoc]) with h | h <;>
          exact absurd h (by decide)
      · have hY4 : (':' : Char) ∉
            (vh ++ ['|','L','i','g','h','t',' ','l','e','v','e','l'] : List Char) := by
          intro hm
          rcases List.mem_append.1 hm with hm | hm
          · exact hvh hm
          · revert hm; decide
        rcases colon_anchor _ _ _ _ hY4 hz3 with ⟨hu4, _⟩ | ⟨U5, hu4, hz4⟩
        · rw [hu4] at hu3
          rw [hu3] at hu2
          rw [hu2] at hu
          rcases append_eq_append_cases u ['V','a','l','v','e']
            (['W','e','a','t','h','e','r',':'] ++ w ++ ['|','T','e','m','p',':'] ++ vt ++
              ['|','H','u','m',':'] ++ vh)
            ['|','L','i','g','h','t',' ','l','e','v','e','l']
            (by rw [hu]; simp [List.append_assoc]) with h | h <;>
            exact absurd h (by decide)
        · have hY5 : (':' : Char) ∉
              (vl ++ ['|','M','o','i','s','t','u','r','e'] : List Char) := by
            intro hm
            rcases List.mem_append.1 hm with hm | hm
            · exact hvl hm
            · revert hm; decide
          rcases colon_anchor _ _ _ _ hY5 hz4 with ⟨hu5, _⟩ | ⟨U6, _, hz5⟩
          · rw [hu5] at hu4
            rw [hu4] at hu3
            rw [hu3] at hu2
            rw [hu2] at hu
            rcases append_eq_append_cases u ['V','a','l','v','e']
              (['W','e','a','t','h','e','r',':'] ++ w ++ ['|','T','e','m','p',':'] ++ vt ++
                ['|','H','u','m',':'] ++ vh ++
                ['|','L','i','g','h','t',' ','l','e','v','e','l',':'] ++ vl)
              ['|','M','o','i','s','t','u','r','e']
              (by rw [hu]; simp [List.append_assoc]) with h | h <;>
              exact absurd h (by decide)
          · exact no_colon_split _ U6 v (by
              intro hm
              rcases List.mem_append.1 hm with hm | hm
              · exact hvm hm
              · revert hm; decide) hz5

theorem decodePacket_encode (w vt vh vl vm vv : List Char)
    (hw : (':' : Char) ∉ w ∧ ('|' : Char) ∉ w ∧ ((',') : Char) ∉ w ∧
      ((' ') : Char) ∉ w ∧ ∀ c ∈ w, printableC c = true)
    (hvt : (':' : Char) ∉ vt ∧ ('|' : Char) ∉ vt ∧ ((',') : Char) ∉ vt ∧
      ((' ') : Char) ∉ vt ∧ ∀ c ∈ vt, printableC c = true)
    (hvh : (':' : Char) ∉ vh ∧ ('|' : Char) ∉ vh ∧ ((',') : Char) ∉ vh ∧
      ((' ') : Char) ∉ vh ∧ ∀ c ∈ vh, printableC c = true)
    (hvl : (':' : Char) ∉ vl ∧ ('|' : Char) ∉ vl ∧ ((',') : Char) ∉ vl ∧
      ((' ') : Char) ∉ vl ∧ ∀ c ∈ vl, printableC c = true)
    (hvm : (':' : Char) ∉ vm ∧ ('|' : Char) ∉ vm ∧ ((',') : Char) ∉ vm ∧
      ((' ') : Char) ∉ vm ∧ ∀ c ∈ vm, printableC c = true)
    (hvv : (':' : Char) ∉ vv ∧ ('|' : Char) ∉ vv ∧ ((',') : Char) ∉ vv ∧
      ((' ') : Char) ∉ vv ∧ ∀ c ∈ vv, printableC c = true) :
    decodePacket (encodeTelemetry w vt vh vl vm vv) =
      ⟨w, .num (atofQ vt), .num (atofQ vh), .num (atofQ vl), .num (atofQ vm), vv⟩ := by
  have pA : ∀ {a b : List Char}, (∀ c ∈ a, printableC c = true) →
      (∀ c ∈ b, printableC c = true) → ∀ c ∈ a ++ b, printableC c = true := by
    intro a b ha hb c hc
    rcases List.mem_append.1 hc with h | h
    · exact ha c h
    · exact hb c h
  have hfil : (encodeTelemetry w vt vh vl vm vv).filter printableC =
      encodeTelemetry w vt vh vl vm vv := by
    rw [List.filter_eq_self]
    show ∀ c ∈ tWeather ++ w ++ '|' :: tTemp ++ vt ++ '|' :: tHum ++ vh ++
      '|' :: tLight ++ vl ++ '|' :: tMoist ++ vm ++ '|' :: tValve ++ vv,
      printableC c = true
    exact pA (pA (pA (pA (pA (pA (pA (pA (pA (pA (pA (by decide) hw.2.2.2.2)
      (by decide)) hvt.2.2.2.2) (by decide)) hvh.2.2.2.2) (by decide))
      hvl.2.2.2.2) (by decide)) hvm.2.2.2.2) (by decide)) hvv.2.2.2.2
  have eW : extractStr (encodeTelemetry w vt vh vl vm vv) tWeather = w := by
    rw [show encodeTelemetry w vt vh vl vm vv =
      [] ++ (tWeather ++ (w ++ ('|' :: (tTemp ++ (vt ++ '|' :: (tHum ++ (vh ++ '|' ::
        (tLight ++ (vl ++ '|' :: (tMoist ++ (vm ++ '|' :: (tValve ++ vv)))))))))))) from by
        simp [encodeTelemetry, List.append_assoc]]
    exact extractStr_spec _ _ _ _ (by decide)
      (by intro hx; have := occursIn_length _ _ hx; revert this; decide)
      hw.2.2.2.1 hw.2.1 hw.2.2.1 (Or.inr ⟨_, rfl⟩)
  have eT : extractStr (encodeTelemetry w vt vh vl vm vv) tTemp = vt := by
    rw [show encodeTelemetry w vt vh vl vm vv =
      (tWeather ++ (w ++ ['|'])) ++ (tTemp ++ (vt ++ '|' :: (tHum ++ (vh ++ '|' ::
        (tLight ++ (vl ++ '|' :: (tMoist ++ (vm ++ '|' :: (tValve ++ vv)))))))))  from by
        simp [encodeTelemetry, List.append_assoc]]
    exact extractStr_spec _ _ _ _ (by decide) (noEarly_temp w hw.1)
      hvt.2.2.2.1 hvt.2.1 hvt.2.2.1 (Or.inr ⟨_, rfl⟩)
  have eH : extractStr (encodeTelemetry w vt vh vl vm vv) tHum = vh := by
    rw [show encodeTelemetry w vt vh vl vm vv =
      (tWeather ++ (w ++ '|' :: (tTemp ++ (vt ++ ['|'])))) ++ (tHum ++ (vh ++ '|' ::
        (tLight ++ (vl ++ '|' :: (tMoist ++ (vm ++ '|' :: (tValve ++ vv))))))) from by
        simp [encodeTelemetry, List.append_assoc]]
    exact extractStr_spec _ _ _ _ (by decide) (noEarly_hum w vt hw.1 hvt.1)
      hvh.2.2.2.1 hvh.2.1 hvh.2.2.1 (Or.inr ⟨_, rfl⟩)
  have eL : extractStr (encodeTelemetry w vt vh vl vm vv) tLight = vl := by
    rw [show encodeTelemetry w vt vh vl vm vv =
      (tWeather ++ (w ++ '|' :: (tTemp ++ (vt ++ '|' :: (tHum ++ (vh ++ ['|'])))))) ++
        (tLight ++ (vl ++ '|' :: (tMoist ++ (vm ++ '|' :: (tValve ++ vv))))) from by
        simp [encodeTelemetry, List.append_assoc]]
    exact extractStr_spec _ _ _ _ (by decide) (noEarly_light w vt vh hw.1 hvt.1 hvh.1)
      hvl.2.2.2.1 hvl.2.1 hvl.2.2.1 (Or.inr ⟨_, rfl⟩)
  have eM : extractStr (encodeTelemetry w vt vh vl vm vv) tMoist = vm := by
    rw [show encodeTelemetry w vt vh vl vm vv =
      (tWeather ++ (w ++ '|' :: (tTemp ++ (vt ++ '|' :: (tHum ++ (vh ++ '|' ::
        (tLight ++ (vl ++ ['|'])))))))) ++ (tMoist ++ (vm ++ '|' :: (tValve ++ vv))) from by
        simp [encodeTelemetry, List.append_assoc]]
    exact extractStr_spec _ _ _ _ (by decide)
      (noEarly_moist w vt vh vl hw.1 hvt.1 hvh.1 hvl.1)
      hvm.2.2.2.1 hvm.2.1 hvm.2.2.1 (Or.inr ⟨_, rfl⟩)
  have eV : extractStr (encodeTelemetry w vt vh vl vm vv) tValve = vv := by
    rw [show encodeTelemetry w vt vh vl vm vv =
      (tWeather ++ (w ++ '|' :: (tTemp ++ (vt ++ '|' :: (tHum ++ (vh ++ '|' ::
        (tLight ++ (vl ++ '|' :: (tMoist ++ (vm ++ ['|'])))))))))) ++
        (tValve ++ (vv ++ [])) from by
        simp [encodeTelemetry, List.append_assoc]]
    exact extractStr_spec _ _ _ _ (by decide)
      (noEarly_valve w vt vh vl vm hw.1 hvt.1 hvh.1 hvl.1 hvm.1)
      hvv.2.2.2.1 hvv.2.1 hvv.2.2.1 (Or.inl rfl)
  simp only [decodePacket, extractFloat, hfil, eW, eT, eH, eL, eM, eV, FVal.isNaN]
  simp

/-- Claim C7: codec round-trip.  For every valid snapshot — weather Clear
or Raining, floats already carrying their 1-decimal rounded value
(`t10`/`h10`/`l10` are the signed tenths), an integer moisture and an
OPEN/CLOSE valve state — decoding the encoded pipe-delimited packet
reproduces every field: the weather string, temperature, humidity,
light level and moisture equal their encoded values, and the valve field
is reproduced verbatim. -/
theorem codecRoundTrip_c7 : ∀ (raining valveOpen : Bool) (t10 h10 l10 : ℤ) (m : ℕ),
    decodePacket (fieldPacket raining t10 h10 l10 m valveOpen) =
      ⟨(if raining then rainingStr else clearStr),
        .num ((t10 : ℚ) / 10), .num ((h10 : ℚ) / 10), .num ((l10 : ℚ) / 10),
        .num (m : ℚ), (if valveOpen then openStr else closeStr)⟩ := by
  intro raining valveOpen t10 h10 l10 m
  rw [fieldPacket, decodePacket_encode _ _ _ _ _ _
    (by cases raining <;> decide)
    (renderTenths_classes t10) (renderTenths_classes h10) (renderTenths_classes l10)
    (renderNat_classes m)
    (by cases valveOpen <;> decide)]
  rw [atofQ_renderTenths, atofQ_renderTenths, atofQ_renderTenths, atofQ_renderNat]
